import Mathlib

/-!
A shallow embedding of the luar Go↔Lua conversion engine (src/luar.go).

Go values are modelled as an inductive tree carrying explicit identities
(addresses) for the composites whose `reflect.Value.Pointer()` the source
consults; Lua values carry table/userdata identities the same way.  The
host→script converter (`GoToLua` / `goToLua` and the three `copy*ToTable`
helpers), the script→host converter (`LuaToGo` / `luaToGo` and the three
`copyTableTo*` helpers) and the function-bridge argument marshaling of
`goLuaFunc` are translated function by function.  Go machine floats are
modelled exactly: the only lossy operation the engine performs on the
modelled fragment is the `float64(intValue)` conversion when pushing
integers, which is modelled by `roundF64`, exact round-to-nearest-even at
53 significant bits.

Lua tables are mutated in place by the runtime; the pure model threads
the table contents explicitly instead, and a visited-set entry stores the
snapshot of the produced value at the moment the source records it.  All
theorems below either concern only the identities recorded in a visited
set or run on values whose identities are pairwise distinct, for which a
recorded snapshot is never read back.
-/

namespace Luar

/-- Go types of the fragment the conversion engine manipulates.  Scalar
types carry an `nt` flag: `nt = true` means the type is a named (defined)
variant of the predeclared type, which is exactly what `isNewType` in the
source reports.  `nullT` is the type of the `Null` sentinel, `luaObject`
the opaque `LuaObject` struct type (its fields are irrelevant here).
Struct fields are triples (declared name, lua tag, type); an empty tag
means no tag. -/
inductive GoType where
  | bool (nt : Bool)
  | int (nt : Bool)
  | uint (nt : Bool)
  | float (nt : Bool)
  | str (nt : Bool)
  | nullT
  | ptr (t : GoType)
  | slice (t : GoType)
  | array (n : Nat) (t : GoType)
  | map (k v : GoType)
  | struct (fields : List (String × String × GoType))
  | iface
  | luaObject
  deriving Repr

/-- Go reflection kinds, in the fragment used by the engine's dispatch.
`invalid` is the kind of the zero `reflect.Value`. -/
inductive GoKind where
  | invalid
  | kbool
  | kint
  | kuint
  | kfloat
  | kstr
  | kptr
  | kslice
  | karray
  | kmap
  | kstruct
  | kiface
  deriving DecidableEq, Repr

/-- Kind of a Go type (`reflect.Type.Kind`).  The defined type `NullT`
has underlying kind int.  `LuaObject` is a struct type. -/
def GoType.kind : GoType → GoKind
  | .bool _ => .kbool
  | .int _ => .kint
  | .uint _ => .kuint
  | .float _ => .kfloat
  | .str _ => .kstr
  | .nullT => .kint
  | .ptr _ => .kptr
  | .slice _ => .kslice
  | .array _ _ => .karray
  | .map _ _ => .kmap
  | .struct _ => .kstruct
  | .iface => .kiface
  | .luaObject => .kstruct

/-- Structural equality of Go types (reflect type identity). -/
def GoType.beq : GoType → GoType → Bool
  | .bool a, .bool b => a == b
  | .int a, .int b => a == b
  | .uint a, .uint b => a == b
  | .float a, .float b => a == b
  | .str a, .str b => a == b
  | .nullT, .nullT => true
  | .ptr a, .ptr b => a.beq b
  | .slice a, .slice b => a.beq b
  | .array m a, .array n b => m == n && a.beq b
  | .map k v, .map k2 v2 => k.beq k2 && v.beq v2
  | .struct fs, .struct gs => fieldsBeq fs gs
  | .iface, .iface => true
  | .luaObject, .luaObject => true
  | _, _ => false
where fieldsBeq : List (String × String × GoType) → List (String × String × GoType) → Bool
  | [], [] => true
  | (n1, t1, a) :: xs, (n2, t2, b) :: ys =>
      n1 == n2 && t1 == t2 && a.beq b && fieldsBeq xs ys
  | _, _ => false

/-- Go values of the modelled fragment.  A value is the concrete dynamic
value a `reflect.Value` holds; interface slots are represented by the
concrete value they box (`vifaceNil` is the nil interface, which reflect
reports as an invalid Value).  Composites whose `Pointer()` the source
reads (pointers, slices, maps) carry an explicit `addr` identity; the nil
variants have `Pointer() = 0`.  `vnull` is the `Null` sentinel (the sole
`NullT` value the engine ever produces).  `vluaObject` is an opaque
wrapped script handle (a `LuaObject`; its ref field is the registry
reference).  Struct values carry their field descriptors (the struct
type) next to the field values. -/
inductive GoVal where
  | vbool (nt : Bool) (b : Bool)
  | vint (nt : Bool) (n : Int)
  | vuint (nt : Bool) (n : Nat)
  | vfloat (nt : Bool) (q : Rat)
  | vstr (nt : Bool) (s : String)
  | vnull
  | vptrNil (t : GoType)
  | vptr (t : GoType) (addr : Nat) (pointee : GoVal)
  | vsliceNil (t : GoType)
  | vslice (t : GoType) (addr : Nat) (elems : List GoVal)
  | varray (t : GoType) (elems : List GoVal)
  | vmapNil (kt vt : GoType)
  | vmap (kt vt : GoType) (addr : Nat) (entries : List (GoVal × GoVal))
  | vstruct (fields : List (String × String × GoType)) (vals : List GoVal)
  | vifaceNil
  | vluaObject (ref : Nat)
  deriving Repr

/-- Static type of a value (`reflect.Value.Type`). -/
def GoVal.typeOf : GoVal → GoType
  | .vbool nt _ => .bool nt
  | .vint nt _ => .int nt
  | .vuint nt _ => .uint nt
  | .vfloat nt _ => .float nt
  | .vstr nt _ => .str nt
  | .vnull => .nullT
  | .vptrNil t => .ptr t
  | .vptr t _ _ => .ptr t
  | .vsliceNil t => .slice t
  | .vslice t _ _ => .slice t
  | .varray t es => .array es.length t
  | .vmapNil k v => .map k v
  | .vmap k v _ _ => .map k v
  | .vstruct fs _ => .struct fs
  | .vifaceNil => .iface
  | .vluaObject _ => .luaObject

/-- Kind of the value's type (`reflect.Value.Kind`). -/
def GoVal.kind (v : GoVal) : GoKind := v.typeOf.kind

/-- The `isNil` helper of the source: true exactly for the nil values of
the nullable kinds present in the model (interface, map, ptr, slice). -/
def isNil : GoVal → Bool
  | .vptrNil _ => true
  | .vsliceNil _ => true
  | .vmapNil _ _ => true
  | .vifaceNil => true
  | _ => false

/-- The `isNewType` predicate of the source: a type is new when it is not
the predeclared type of its kind.  On the modelled scalar types that is
exactly the `nt` flag; `NullT` is a defined type, hence new. -/
def isNewType : GoType → Bool
  | .bool nt => nt
  | .int nt => nt
  | .uint nt => nt
  | .float nt => nt
  | .str nt => nt
  | .nullT => true
  | _ => false

/-- Floor of the base-2 logarithm, driven by explicit fuel so that the
kernel can evaluate it (the recursion depth is the logarithm itself). -/
def log2floor (fuel n : Nat) : Nat :=
  match fuel with
  | 0 => 0
  | f + 1 => if 2 ≤ n then log2floor f (n / 2) + 1 else 0

/-- Round-to-nearest-even of a natural number at 53 significant bits:
the value of `float64(n)` for an unsigned integer `n`.  Numbers up to
2^53 are exact. -/
def roundF64Nat (n : Nat) : Nat :=
  if n ≤ 2 ^ 53 then n
  else
    let e := log2floor n n - 52
    let q := n / 2 ^ e
    let r := n % 2 ^ e
    let half := 2 ^ (e - 1)
    let q2 := if r < half then q else if half < r then q + 1
              else if q % 2 = 0 then q else q + 1
    q2 * 2 ^ e

/-- The value of `float64(n)` for a signed integer `n`. -/
def roundF64 (n : Int) : Int :=
  if 0 ≤ n then (roundF64Nat n.toNat : Int) else -(roundF64Nat (-n).toNat : Int)

/-- Truncation toward zero of a rational: the value of a Go
float64-to-integer conversion (for in-range arguments). -/
def truncRat (q : Rat) : Int :=
  if 0 ≤ q then q.floor else q.ceil

/-- Capability tags of the proxy subsystem (the `c*Meta` metatables). -/
inductive ProxyTag where
  | numberMeta
  | stringMeta
  | sliceMeta
  | mapMeta
  | structMeta
  | channelMeta
  | interfaceMeta
  | complexMeta
  deriving DecidableEq, Repr

/-- Lua values.  Tables and plain userdata carry their identity
(`lua_topointer`); a proxy is a userdata wrapping a Go value together
with its capability tag, and carries its own identity.  `tnone` is the
pseudo-value of a stack index beyond the top (`LUA_TNONE`). -/
inductive LuaVal where
  | nil
  | tnone
  | boolean (b : Bool)
  | number (q : Rat)
  | str (s : String)
  | table (id : Nat) (entries : List (LuaVal × LuaVal))
  | proxy (id : Nat) (v : GoVal) (tag : ProxyTag)
  | userdata (id : Nat)
  deriving Repr

/-- Raw (primitive) Lua equality on table keys: value equality for
scalars, identity for tables and userdata. -/
def luaKeyEq : LuaVal → LuaVal → Bool
  | .boolean a, .boolean b => a == b
  | .number a, .number b => a == b
  | .str a, .str b => a == b
  | .table i _, .table j _ => i == j
  | .proxy i _ _, .proxy j _ _ => i == j
  | .userdata i, .userdata j => i == j
  | _, _ => false

/-- Raw table read (`lua_rawget`): the value stored at the key, or nil. -/
def lookupTable (es : List (LuaVal × LuaVal)) (k : LuaVal) : LuaVal :=
  match es.find? (fun p => luaKeyEq p.1 k) with
  | some p => p.2
  | none => .nil

/-- Raw table write (`lua_settable`): storing nil removes the key, any
other value replaces the existing entry or appends a new one.  A nil key
raises a Lua error and is modelled as a no-op (no modelled conversion
stores a nil key). -/
def setTable (es : List (LuaVal × LuaVal)) (k v : LuaVal) : List (LuaVal × LuaVal) :=
  match k with
  | .nil => es
  | _ =>
    match v with
    | .nil => es.filter (fun p => !luaKeyEq p.1 k)
    | _ =>
      if (es.find? (fun p => luaKeyEq p.1 k)).isSome then
        es.map (fun p => if luaKeyEq p.1 k then (p.1, v) else p)
      else
        es ++ [(k, v)]

/-- Length of a table (`lua_objlen`): the count of consecutive integer
keys starting at 1.  On the hole-free sequential tables the converter
builds this is the exact Lua border; for tables with holes any border is
a legal result and the model picks the smallest. -/
def objLen (es : List (LuaVal × LuaVal)) : Nat :=
  go es.length 0
where go : Nat → Nat → Nat
  | 0, acc => acc
  | fuel + 1, acc =>
      match lookupTable es (.number ((acc + 1 : Nat) : Rat)) with
      | .nil => acc
      | _ => go fuel (acc + 1)

/-- The `luaIsEmpty` helper of the source: `lua_next` from the nil key
finds no pair exactly when the table has no entries. -/
def luaIsEmpty (es : List (LuaVal × LuaVal)) : Bool := es.isEmpty

/-- Lua type name of a value (`luaL_typename`), used in error values. -/
def ltypename : LuaVal → String
  | .nil => "nil"
  | .tnone => "no value"
  | .boolean _ => "boolean"
  | .number _ => "number"
  | .str _ => "string"
  | .table _ _ => "table"
  | .proxy _ _ _ => "userdata"
  | .userdata _ => "userdata"

/-- The string conversion `lua_tostring` performs on a table key being
matched against struct field names.  Only string keys are stringified in
the modelled theorems; for every other value the model returns "" (the
runtime would also format numbers, which no modelled struct field name
can match since Go field names are identifiers). -/
def luaToString : LuaVal → String
  | .str s => s
  | _ => ""

/-- State of one host→script conversion: the visitor table anchored in
the Lua registry (`visitor.index`), mapping a Go identity to the Lua
table recorded for it, and the supply of fresh Lua object identities
(each table or userdata the conversion creates gets the next one).  A
recorded entry stores the creation-time snapshot of the table; the
runtime mutates the table in place afterwards, so of a recalled entry
only the identity is meaningful. -/
structure GState where
  vis : List (Nat × LuaVal)
  next : Nat

/-- The `visitor.mark` operation: record the value on top of the stack
under the Go identity `addr` (a raw set, overwriting semantics). -/
def vmark (st : GState) (addr : Nat) (tbl : LuaVal) : GState :=
  { st with vis := (addr, tbl) :: st.vis }

/-- The `visitor.push` operation: the value recorded under `addr`, if
any. -/
def vpush (st : GState) (addr : Nat) : Option LuaVal :=
  (st.vis.find? (fun p => p.1 == addr)).map (·.2)

/-- Modelled from the spec: the proxy subsystem's `makeValueProxy`
(outside src/) creates a fresh opaque userdata wrapping the host value
together with a capability tag selecting its method-dispatch behavior. -/
def makeValueProxy (v : GoVal) (tag : ProxyTag) (st : GState) : LuaVal × GState :=
  (.proxy st.next v tag, { st with next := st.next + 1 })

/-- The pointer-following loop of `goToLua` (`for val.Kind() == Ptr`):
fully dereference a pointer chain.  A nil pointer dereferences to the
invalid Value, represented by the `vptrNil` result itself. -/
def derefChain : GoVal → GoVal
  | .vptr _ _ p => derefChain p
  | v => v

theorem sizeOf_derefChain : (v : GoVal) → sizeOf (derefChain v) ≤ sizeOf v
  | .vptr t a p => by
      have ih := sizeOf_derefChain p
      simp only [derefChain]
      simp
      omega
  | .vbool _ _ => le_refl _
  | .vint _ _ => le_refl _
  | .vuint _ _ => le_refl _
  | .vfloat _ _ => le_refl _
  | .vstr _ _ => le_refl _
  | .vnull => le_refl _
  | .vptrNil _ => le_refl _
  | .vsliceNil _ => le_refl _
  | .vslice _ _ _ => le_refl _
  | .varray _ _ => le_refl _
  | .vmapNil _ _ => le_refl _
  | .vmap _ _ _ _ => le_refl _
  | .vstruct _ _ => le_refl _
  | .vifaceNil => le_refl _
  | .vluaObject _ => le_refl _

theorem one_le_sizeOf_goVal (v : GoVal) : 1 ≤ sizeOf v := by
  cases v <;> simp <;> omega

theorem one_le_sizeOf_list {α : Type} [SizeOf α] (xs : List α) : 1 ≤ sizeOf xs := by
  cases xs <;> simp <;> omega

/-- The `Pointer()` identity of a slice value (its data pointer; nil is
0). -/
def sliceAddr : GoVal → Nat
  | .vslice _ a _ => a
  | _ => 0

/-- The `Pointer()` identity of a map value (nil is 0). -/
def mapAddr : GoVal → Nat
  | .vmap _ _ a _ => a
  | _ => 0

/-- The `Pointer()` identity of a pointer value (nil is 0). -/
def ptrAddr : GoVal → Nat
  | .vptr _ a _ => a
  | _ => 0

/-- Elements of a slice or array value (`Len` / `Index`); nil slices
have none. -/
def elemsOf : GoVal → List GoVal
  | .vslice _ _ es => es
  | .varray _ es => es
  | _ => []

/-- Entries of a map value (`MapKeys` / `MapIndex`, in the model's fixed
iteration order); nil maps have none. -/
def mapEntriesOf : GoVal → List (GoVal × GoVal)
  | .vmap _ _ _ es => es
  | _ => []

/-- Field descriptors and field values of a struct value (`NumField`,
`Type().Field(i)`, `Field(i)`). -/
def structParts : GoVal → List (String × String × GoType) × List GoVal
  | .vstruct fs vs => (fs, vs)
  | _ => ([], [])

theorem sizeOf_elemsOf (w : GoVal) : sizeOf (elemsOf w) ≤ sizeOf w := by
  cases w <;> simp [elemsOf] <;> omega

theorem sizeOf_mapEntriesOf (w : GoVal) : sizeOf (mapEntriesOf w) ≤ sizeOf w := by
  cases w <;> simp [mapEntriesOf] <;> omega

theorem sizeOf_structParts (w : GoVal) :
    sizeOf (structParts w).1 + sizeOf (structParts w).2 ≤ sizeOf w + 1 := by
  cases w <;> simp [structParts] <;> omega

mutual

/-- The `goToLua` dispatcher of the source: unbox interfaces (implicit in
the value representation), follow pointer chains remembering the original
`ptrVal`, special-case the `Null` sentinel (always proxified), then
dispatch on the dereferenced value's kind.  The error-interface and
`*LuaObject` special cases of the struct branch concern values outside
the modelled universe (no modelled struct type implements `error`); the
`*LuaObject` case is modelled on `vluaObject` by re-pushing the wrapped
handle's identity.  Chan, Func and Complex kinds are outside the modelled
fragment. -/
def goToLua (v : GoVal) (proxify : Bool) (st : GState) : LuaVal × GState :=
  match h : derefChain v with
  | .vptrNil _ => (.nil, st)
  | .vptr _ _ _ => (.nil, st)
  | .vifaceNil => (.nil, st)
  | .vnull => makeValueProxy .vnull .interfaceMeta st
  | .vbool nt b =>
      if proxify && isNewType (.bool nt) then makeValueProxy v .interfaceMeta st
      else (.boolean b, st)
  | .vint nt n =>
      if proxify && isNewType (.int nt) then makeValueProxy v .numberMeta st
      else (.number ((roundF64 n : Int) : Rat), st)
  | .vuint nt n =>
      if proxify && isNewType (.uint nt) then makeValueProxy v .numberMeta st
      else (.number ((roundF64Nat n : Nat) : Rat), st)
  | .vfloat nt q =>
      if proxify && isNewType (.float nt) then makeValueProxy v .numberMeta st
      else (.number q, st)
  | .vstr nt s =>
      if proxify && isNewType (.str nt) then makeValueProxy v .stringMeta st
      else (.str s, st)
  | .varray _ _ =>
      if proxify && v.kind == .kptr then makeValueProxy v .sliceMeta st
      else if v.kind == .kptr then
        match vpush st (ptrAddr v) with
        | some lv => (lv, st)
        | none => copySliceToTable v st
      else copySliceToTable v st
  | .vsliceNil t =>
      if proxify then makeValueProxy v .sliceMeta st
      else
        match vpush st (sliceAddr (.vsliceNil t)) with
        | some lv => (lv, st)
        | none => copySliceToTable (.vsliceNil t) st
  | .vslice t a es =>
      if proxify then makeValueProxy v .sliceMeta st
      else
        match vpush st (sliceAddr (.vslice t a es)) with
        | some lv => (lv, st)
        | none => copySliceToTable (.vslice t a es) st
  | .vmapNil kt vt =>
      if proxify then makeValueProxy v .mapMeta st
      else
        match vpush st (mapAddr (.vmapNil kt vt)) with
        | some lv => (lv, st)
        | none => copyMapToTable (.vmapNil kt vt) st
  | .vmap kt vt a es =>
      if proxify then makeValueProxy v .mapMeta st
      else
        match vpush st (mapAddr (.vmap kt vt a es)) with
        | some lv => (lv, st)
        | none => copyMapToTable (.vmap kt vt a es) st
  | .vstruct _ _ =>
      if proxify && v.kind == .kptr then makeValueProxy v .structMeta st
      else if v.kind == .kptr then
        match vpush st (ptrAddr v) with
        | some lv => (lv, st)
        | none => copyStructToTable v st
      else copyStructToTable v st
  | .vluaObject r =>
      if proxify && v.kind == .kptr then (.userdata r, st)
      else if v.kind == .kptr then
        match vpush st (ptrAddr v) with
        | some lv => (lv, st)
        | none => copyStructToTable v st
      else copyStructToTable v st
termination_by 8 * sizeOf v + 11
decreasing_by
  all_goals simp_wf
  all_goals try omega
  all_goals (have hh := sizeOf_derefChain v; rw [h] at hh; simp at hh ⊢; omega)

/-- The `copySliceToTable` helper (also for arrays): dereference the
argument (pointers to arrays arrive undereferenced), create a table of
the element count, mark it as visited — keyed by the slice's own data
pointer for slices, by the pointer for pointed-to arrays, not at all for
bare arrays — then copy elements under keys 1..n, nil elements replaced
by the `Null` sentinel. -/
def copySliceToTable (u : GoVal) (st : GState) : LuaVal × GState :=
  let w := derefChain u
  let es := elemsOf w
  let tid := st.next
  let st1 : GState := { st with next := st.next + 1 }
  let st2 :=
    if w.kind == .kslice then vmark st1 (sliceAddr w) (.table tid [])
    else if u.kind == .kptr then vmark st1 (ptrAddr u) (.table tid [])
    else st1
  let (ents, st3) := goSliceElems es 1 [] st2
  (.table tid ents, st3)
termination_by 8 * sizeOf u + 10
decreasing_by
  simp_wf
  have h1 := sizeOf_elemsOf (derefChain u)
  have h2 := sizeOf_derefChain u
  omega

/-- The element loop of `copySliceToTable`: push the 1-based index, the
element (nil replaced by `Null`), and set the pair into the table. -/
def goSliceElems (es : List GoVal) (i : Nat) (acc : List (LuaVal × LuaVal)) (st : GState) :
    List (LuaVal × LuaVal) × GState :=
  match es with
  | [] => (acc, st)
  | e :: rest =>
      let e2 := if isNil e then .vnull else e
      let (lv, st1) := goToLua e2 false st
      goSliceElems rest (i + 1) (setTable acc (.number ((i : Nat) : Rat)) lv) st1
termination_by 8 * sizeOf es + 1
decreasing_by
  all_goals simp_wf
  all_goals try split
  all_goals try simp
  all_goals try (have he := one_le_sizeOf_goVal e; have hr := one_le_sizeOf_list rest)
  all_goals omega

/-- The `copyMapToTable` helper: create a table, mark it as visited keyed
by the map's pointer (unconditionally, empty maps included), then copy
every entry, keys converted in proxy mode, nil values replaced by the
`Null` sentinel. -/
def copyMapToTable (u : GoVal) (st : GState) : LuaVal × GState :=
  let tid := st.next
  let st1 : GState := { st with next := st.next + 1 }
  let st2 := vmark st1 (mapAddr u) (.table tid [])
  let (ents, st3) := goMapPairs (mapEntriesOf u) [] st2
  (.table tid ents, st3)
termination_by 8 * sizeOf u + 10
decreasing_by
  simp_wf
  have h1 := sizeOf_mapEntriesOf u
  omega

/-- The entry loop of `copyMapToTable`. -/
def goMapPairs (ps : List (GoVal × GoVal)) (acc : List (LuaVal × LuaVal)) (st : GState) :
    List (LuaVal × LuaVal) × GState :=
  match ps with
  | [] => (acc, st)
  | (k, w) :: rest =>
      let (lk, st1) := goToLua k true st
      let w2 := if isNil w then .vnull else w
      let (lw, st2) := goToLua w2 false st1
      goMapPairs rest (setTable acc lk lw) st2
termination_by 8 * sizeOf ps + 1
decreasing_by
  all_goals simp_wf
  all_goals try split
  all_goals try simp
  all_goals try (have hk := one_le_sizeOf_goVal k; have hw := one_le_sizeOf_goVal w;
                 have hr := one_le_sizeOf_list rest)
  all_goals omega

/-- The `copyStructToTable` helper: dereference the argument, create a
table, mark it as visited only when a pointer to the struct was supplied
(keyed by the pointer), then copy each field under its script-visible
key: the lua tag when non-empty, the declared name otherwise. -/
def copyStructToTable (u : GoVal) (st : GState) : LuaVal × GState :=
  let w := derefChain u
  let p := structParts w
  let tid := st.next
  let st1 : GState := { st with next := st.next + 1 }
  let st2 := if u.kind == .kptr then vmark st1 (ptrAddr u) (.table tid []) else st1
  let (ents, st3) := goStructFields p.1 p.2 [] st2
  (.table tid ents, st3)
termination_by 8 * sizeOf u + 10
decreasing_by
  simp_wf
  have h1 := sizeOf_structParts (derefChain u)
  have h2 := sizeOf_derefChain u
  omega

/-- The field loop of `copyStructToTable`: the key is pushed through
`goToLua` as a bare Go string, the field value in copy mode (no nil
replacement for struct fields). -/
def goStructFields (fs : List (String × String × GoType)) (vs : List GoVal)
    (acc : List (LuaVal × LuaVal)) (st : GState) : List (LuaVal × LuaVal) × GState :=
  match fs, vs with
  | (name, tag, _) :: fr, w :: vr =>
      let key := if tag != "" then tag else name
      let (lk, st1) := goToLua (.vstr false key) false st
      let (lw, st2) := goToLua w false st1
      goStructFields fr vr (setTable acc lk lw) st2
  | _, _ => (acc, st)
termination_by 8 * (sizeOf fs + sizeOf vs) + 1
decreasing_by
  all_goals simp_wf
  all_goals try split
  all_goals try simp
  all_goals omega

end

/-- The top-level `GoToLua`: convert in copy mode with a fresh visitor.
The visitor's registry slot is allocated by `newVisitor` and released by
`close`; neither is observable in the pushed value, which this function
returns. -/
def GoToLua (v : GoVal) : LuaVal := (goToLua v false ⟨[], 0⟩).1

/-- The top-level `GoToLuaProxy`: convert in proxy mode with a fresh
visitor. -/
def GoToLuaProxy (v : GoVal) : LuaVal := (goToLua v true ⟨[], 0⟩).1

/-- Destination slot of the script→host converter: the `reflect.Value`
handed to `luaToGo`, either a settable slot of a known static type or
the invalid zero Value (obtained e.g. by dereferencing a nil pointer). -/
inductive RVal where
  | invalid
  | slot (t : GoType)
  deriving Repr

/-- Kind of the destination slot; the invalid Value has kind Invalid. -/
def RVal.kind : RVal → GoKind
  | .invalid => .invalid
  | .slot t => t.kind

/-- Static type of a valid destination slot (`value.Type()`); calling it
on the invalid Value panics, which the conversion code models
explicitly, so the default is never consulted. -/
def RVal.typeD : RVal → GoType
  | .invalid => .iface
  | .slot t => t

/-- Result of one script→host conversion step: the value stored into the
destination on success, a returned `LuaToGoError` value, a plain error
(`errors.New`), or a Go panic propagating out of the reflect machinery
(panics are not error returns: the copy helpers discard returned errors
but cannot intercept a panic). -/
inductive LRes where
  | ok (v : GoVal)
  | convErr (lua : String) (dest : RVal)
  | plainErr (msg : String)
  | panicked (msg : String)
  deriving Repr

mutual

/-- The zero value of a type (`reflect.Zero`, `reflect.New(t).Elem()`). -/
def zeroValue : GoType → GoVal
  | .bool nt => .vbool nt false
  | .int nt => .vint nt 0
  | .uint nt => .vuint nt 0
  | .float nt => .vfloat nt 0
  | .str nt => .vstr nt ""
  | .nullT => .vnull
  | .ptr t => .vptrNil t
  | .slice t => .vsliceNil t
  | .array n t => .varray t (List.replicate n (zeroValue t))
  | .map k v => .vmapNil k v
  | .struct fs => .vstruct fs (zeroFields fs)
  | .iface => .vifaceNil
  | .luaObject => .vluaObject 0

/-- Zero values of a struct's fields. -/
def zeroFields : List (String × String × GoType) → List GoVal
  | [] => []
  | (_, _, t) :: rest => zeroValue t :: zeroFields rest

end

/-- True for the numeric reflection kinds (int, uint, float). -/
def numericKind : GoKind → Bool
  | .kint => true
  | .kuint => true
  | .kfloat => true
  | _ => false

/-- Go type convertibility (`reflect.Type.ConvertibleTo`) restricted to
the modelled fragment: identical types, any two numeric-kind types, or
any two string-kind types. -/
def convertibleTo (t d : GoType) : Bool :=
  t.beq d || (numericKind t.kind && numericKind d.kind) ||
    (t.kind == .kstr && d.kind == .kstr)

/-- The integer a numeric value converts to. -/
def asInt : GoVal → Int
  | .vint _ n => n
  | .vuint _ n => n
  | .vfloat _ q => truncRat q
  | _ => 0

/-- The float64 a numeric value converts to. -/
def asRat : GoVal → Rat
  | .vint _ n => ((roundF64 n : Int) : Rat)
  | .vuint _ n => ((roundF64Nat n : Nat) : Rat)
  | .vfloat _ q => q
  | _ => 0

/-- Go value conversion (`reflect.Value.Convert`) restricted to the
modelled fragment; only invoked on `convertibleTo` pairs.  `NullT` is a
defined int type whose only modelled value is the sentinel itself. -/
def goConvert (v : GoVal) (d : GoType) : GoVal :=
  match d with
  | .int nt => .vint nt (asInt v)
  | .uint nt => .vuint nt (asInt v).toNat
  | .float nt => .vfloat nt (asRat v)
  | .str nt => match v with
               | .vstr _ s => .vstr nt s
               | _ => .vstr nt ""
  | .bool nt => match v with
                | .vbool _ b => .vbool nt b
                | _ => v
  | .nullT => .vnull
  | _ => v

/-- A printable name for a Go type (`reflect.Type.String`), used in the
`LuaToGoError` produced when a proxy's wrapped type is not convertible. -/
def goTypeName : GoType → String
  | .bool nt => if nt then "luar-test.NamedBool" else "bool"
  | .int nt => if nt then "luar-test.NamedInt" else "int"
  | .uint nt => if nt then "luar-test.NamedUint" else "uint"
  | .float nt => if nt then "luar-test.NamedFloat" else "float64"
  | .str nt => if nt then "luar-test.NamedString" else "string"
  | .nullT => "luar.NullT"
  | .ptr _ => "ptr"
  | .slice _ => "slice"
  | .array _ _ => "array"
  | .map _ _ => "map"
  | .struct _ => "struct"
  | .iface => "interface {}"
  | .luaObject => "luar.LuaObject"

/-- Equality of Go map keys (the overwrite test of `SetMapIndex`):
value equality at the scalar kinds a modelled key takes; pointer keys
compare by address.  Array- and struct-typed keys do not occur in the
modelled conversions. -/
def goKeyEq : GoVal → GoVal → Bool
  | .vbool _ a, .vbool _ b => a == b
  | .vint _ a, .vint _ b => a == b
  | .vuint _ a, .vuint _ b => a == b
  | .vfloat _ a, .vfloat _ b => a == b
  | .vstr _ a, .vstr _ b => a == b
  | .vnull, .vnull => true
  | .vptrNil _, .vptrNil _ => true
  | .vptr _ a _, .vptr _ b _ => a == b
  | _, _ => false

/-- Write an entry into a Go map value (`SetMapIndex` with a non-zero
value: replace the entry with an equal key or add a new one). -/
def mapSet (es : List (GoVal × GoVal)) (k v : GoVal) : List (GoVal × GoVal) :=
  if (es.find? (fun p => goKeyEq p.1 k)).isSome then
    es.map (fun p => if goKeyEq p.1 k then (p.1, v) else p)
  else es ++ [(k, v)]

/-- Insert into the Go `map[string]string` of field associations
(assignment overwrites). -/
def insertStr (m : List (String × String)) (k v : String) : List (String × String) :=
  match m with
  | [] => [(k, v)]
  | (k0, v0) :: rest => if k0 == k then (k, v) :: rest else (k0, v0) :: insertStr rest k v

/-- Read from the Go `map[string]string`; a missing key yields the zero
string. -/
def lookupStr (m : List (String × String)) (k : String) : String :=
  match m.find? (fun p => p.1 == k) with
  | some p => p.2
  | none => ""

/-- The field-association map of `copyTableToStruct`: iterate the struct
fields in order, associating the lua tag (when non-empty) or otherwise
the declared name with the declared name. -/
def buildFields : List (String × String × GoType) → List (String × String) → List (String × String)
  | [], m => m
  | (name, tag, _) :: rest, m =>
      buildFields rest (if tag != "" then insertStr m tag name else insertStr m name name)

/-- Position of a field with the declared name (`FieldByName`); `none`
is the invalid Value (no such field, in particular for the name ""). -/
def fieldIdxByName (fs : List (String × String × GoType)) (name : String) : Option Nat :=
  fs.findIdx? (fun f => f.1 == name)

/-- Type of the field at a position. -/
def fieldTypeAt (fs : List (String × String × GoType)) (j : Nat) : GoType :=
  match fs.get? j with
  | some f => f.2.2
  | none => .iface

/-- Whether a found field is settable (`CanSet`): the struct is
addressable here, so exactly the exported fields, those whose declared
name starts with an upper-case letter. -/
def canSetField (name : String) : Bool :=
  name.length > 0 && name.front.isUpper

/-- Field descriptors of a struct type. -/
def structFieldsOfType : GoType → List (String × String × GoType)
  | .struct fs => fs
  | _ => []

/-- Element type of a slice, array, map or pointer type (`Elem`). -/
def GoType.elem : GoType → GoType
  | .slice t => t
  | .array _ t => t
  | .map _ v => v
  | .ptr t => t
  | _ => .iface

/-- Key type of a map type (`Key`). -/
def GoType.key : GoType → GoType
  | .map k _ => k
  | _ => .iface

/-- The visited set of one script→host conversion: Lua table identity to
the Go value recorded when that table's conversion began. -/
abbrev VisitedG := List (Nat × GoVal)

/-- Recall a visited Lua table. -/
def lookupVis (vis : VisitedG) (tid : Nat) : Option GoVal :=
  (vis.find? (fun p => p.1 == tid)).map (·.2)

theorem one_le_sizeOf_luaVal (v : LuaVal) : 1 ≤ sizeOf v := by
  cases v <;> simp <;> omega

theorem sizeOf_lookupTable (es : List (LuaVal × LuaVal)) (k : LuaVal) :
    sizeOf (lookupTable es k) ≤ sizeOf es := by
  induction es with
  | nil => simp [lookupTable, List.find?]
  | cons p rest ih =>
      simp only [lookupTable, List.find?] at *
      cases h : luaKeyEq p.1 k with
      | true => simp [h]; cases p with | mk a b => simp; omega
      | false =>
          simp [h]
          split at ih <;> (first | omega | (simp_all; omega))

theorem natLexHelper {a b c d : Nat} (h : a < c ∨ (a = c ∧ b < d)) :
    Prod.Lex (· < ·) (· < ·) (a, b) (c, d) := by
  rcases h with h | ⟨rfl, h⟩
  · exact Prod.Lex.left _ _ h
  · exact Prod.Lex.right _ h

mutual

/-- The `luaToGo` dispatcher of the source: switch on the Lua type of the
value, checking the destination's kind.  Number conversion follows the
source's unsized-kind dispatch (the repository's `unsizedKind` helper is
outside src/ and is modelled from the spec: integer, unsigned and
floating destinations convert with truncation toward zero, a fully
dynamic destination stores a float64, everything else is a mismatch; the
complex case is outside the modelled fragment).  Setting a value that is
not assignable to the destination's type, or touching the type of the
invalid Value, is a reflect panic. -/
def luaToGo (lv : LuaVal) (dest : RVal) (vis : VisitedG) : LRes × VisitedG :=
  match lv with
  | .nil =>
      match dest with
      | .invalid => (.panicked "reflect: Zero of invalid type", vis)
      | .slot t => (.ok (zeroValue t), vis)
  | .boolean b =>
      if dest.kind != .kbool && dest.kind != .kiface then
        (.convErr (ltypename (.boolean b)) dest, vis)
      else
        match dest with
        | .slot (.bool nt) =>
            if nt then (.panicked "reflect.Set: value of type bool is not assignable", vis)
            else (.ok (.vbool false b), vis)
        | _ => (.ok (.vbool false b), vis)
  | .str s =>
      if dest.kind != .kstr && dest.kind != .kiface then
        (.convErr (ltypename (.str s)) dest, vis)
      else
        match dest with
        | .slot (.str nt) =>
            if nt then (.panicked "reflect.Set: value of type string is not assignable", vis)
            else (.ok (.vstr false s), vis)
        | _ => (.ok (.vstr false s), vis)
  | .number q =>
      match dest with
      | .slot (.int nt) => (.ok (.vint nt (truncRat q)), vis)
      | .slot (.uint nt) => (.ok (.vuint nt (truncRat q).toNat), vis)
      | .slot (.float nt) => (.ok (.vfloat nt q), vis)
      | .slot .nullT => (.ok .vnull, vis)
      | .slot .iface => (.ok (.vfloat false q), vis)
      | _ => (.convErr (ltypename (.number q)) dest, vis)
  | .proxy _ pv _ =>
      match pv with
      | .vnull =>
          match dest with
          | .invalid => (.panicked "reflect: Zero of invalid type", vis)
          | .slot t => (.ok (zeroValue t), vis)
      | _ =>
          match dest with
          | .invalid => (.panicked "reflect: call of reflect.Value.Type on zero Value", vis)
          | .slot t0 =>
              if !convertibleTo pv.typeOf t0 then
                (.convErr (goTypeName pv.typeOf) dest, vis)
              else (.ok (goConvert pv t0), vis)
  | .userdata uid =>
      match dest with
      | .slot t =>
          if t.kind == .kiface && t.beq .luaObject then (.ok (.vluaObject uid), vis)
          else (.convErr (ltypename (.userdata uid)) dest, vis)
      | .invalid => (.convErr (ltypename (.userdata uid)) dest, vis)
  | .table tid tes =>
      match lookupVis vis tid with
      | some gv =>
          match dest with
          | .invalid => (.panicked "reflect: Set on zero Value", vis)
          | .slot t =>
              if t.kind == .kiface || (gv.typeOf).beq t then (.ok gv, vis)
              else (.panicked "reflect.Set: value is not assignable", vis)
      | none =>
          match dest.kind with
          | .karray => copyTableToSlice tid tes dest vis
          | .kslice => copyTableToSlice tid tes dest vis
          | .kmap => copyTableToMap tid tes dest vis
          | .kstruct => copyTableToStruct tid tes dest vis
          | .kiface =>
              if objLen tes > 0 then copyTableToSlice tid tes dest vis
              else copyTableToMap tid tes dest vis
          | _ => (.convErr (ltypename (.table tid tes)) dest, vis)
  | .tnone => (.convErr (ltypename .tnone) dest, vis)
termination_by (sizeOf lv, 0)
decreasing_by
  all_goals apply natLexHelper
  all_goals simp
  all_goals omega

/-- The `copyTableToSlice` helper (also for arrays): take the table's
reported length, allocate a zero array or a zeroed slice of that length,
record the table's identity before populating — but only for non-empty
tables and never for arrays — then convert elements 1..n, a `Null`
result becoming the element type's zero and a conversion error being
discarded (the element keeps the zero it was allocated with).  Writing
past the end of an array destination is a reflect panic. -/
def copyTableToSlice (tid : Nat) (tes : List (LuaVal × LuaVal)) (dest : RVal) (vis : VisitedG) :
    LRes × VisitedG :=
  let t := if dest.kind == .kiface then .slice .iface else dest.typeD
  let n := objLen tes
  let te := t.elem
  let init : List GoVal :=
    match t with
    | .array m _ => List.replicate m (zeroValue te)
    | _ => List.replicate n (zeroValue te)
  let vis1 := if n > 0 && t.kind != .karray then (tid, GoVal.vslice te 0 init) :: vis else vis
  match tableToSliceElems tes te init 1 n vis1 with
  | (some msg, _, vis2) => (.panicked msg, vis2)
  | (none, fin, vis2) =>
      match t with
      | .array _ _ => (.ok (.varray te fin), vis2)
      | _ => (.ok (.vslice te 0 fin), vis2)
termination_by (sizeOf tes, objLen tes + 4)
decreasing_by
  apply natLexHelper
  right
  exact ⟨rfl, by omega⟩

/-- The element loop of `copyTableToSlice`. -/
def tableToSliceElems (tes : List (LuaVal × LuaVal)) (te : GoType) (cur : List GoVal)
    (i count : Nat) (vis : VisitedG) : Option String × List GoVal × VisitedG :=
  match count with
  | 0 => (none, cur, vis)
  | count' + 1 =>
      let lv := lookupTable tes (.number ((i : Nat) : Rat))
      match luaToGo lv (.slot te) vis with
      | (.panicked msg, vis1) => (some msg, cur, vis1)
      | (.ok v, vis1) =>
          let v2 := match v with | .vnull => zeroValue te | _ => v
          if i - 1 < cur.length then
            tableToSliceElems tes te (cur.set (i - 1) v2) (i + 1) count' vis1
          else (some "reflect: array index out of range", cur, vis1)
      | (_, vis1) =>
          let v2 := zeroValue te
          if i - 1 < cur.length then
            tableToSliceElems tes te (cur.set (i - 1) v2) (i + 1) count' vis1
          else (some "reflect: array index out of range", cur, vis1)
termination_by (sizeOf tes, count + 2)
decreasing_by
  all_goals apply natLexHelper
  all_goals have hl := sizeOf_lookupTable tes (LuaVal.number ((i : Nat) : Rat))
  all_goals omega

/-- The `copyTableToMap` helper: allocate a map of the destination's key
and value types (`map[string]interface{}` for a dynamic destination),
record the table's identity before populating unless the table is empty,
then convert every pair; key and value conversion errors are discarded
(the zero key/value is stored instead), a `Null` value becomes the value
type's zero. -/
def copyTableToMap (tid : Nat) (tes : List (LuaVal × LuaVal)) (dest : RVal) (vis : VisitedG) :
    LRes × VisitedG :=
  let t := if dest.kind == .kiface then .map (.str false) .iface else dest.typeD
  let te := t.elem
  let tk := t.key
  let vis1 := if !luaIsEmpty tes then (tid, GoVal.vmap tk te 0 []) :: vis else vis
  match tableToMapPairs tes tk te [] vis1 with
  | (some msg, _, vis2) => (.panicked msg, vis2)
  | (none, ents, vis2) => (.ok (.vmap tk te 0 ents), vis2)
termination_by (sizeOf tes, 3)
decreasing_by
  apply natLexHelper
  right
  exact ⟨rfl, by omega⟩

/-- The pair loop of `copyTableToMap`. -/
def tableToMapPairs (tes : List (LuaVal × LuaVal)) (tk te : GoType) (acc : List (GoVal × GoVal))
    (vis : VisitedG) : Option String × List (GoVal × GoVal) × VisitedG :=
  match tes with
  | [] => (none, acc, vis)
  | (k, w) :: rest =>
      match luaToGo k (.slot tk) vis with
      | (.panicked msg, vis1) => (some msg, acc, vis1)
      | (kres, vis1) =>
          let kv := match kres with | .ok v => v | _ => zeroValue tk
          match luaToGo w (.slot te) vis1 with
          | (.panicked msg, vis2) => (some msg, acc, vis2)
          | (wres, vis2) =>
              let wv := match wres with | .ok v => v | _ => zeroValue te
              let wv2 := match wv with | .vnull => zeroValue te | _ => wv
              tableToMapPairs rest tk te (mapSet acc kv wv2) vis2
termination_by (sizeOf tes, 2)
decreasing_by
  all_goals apply natLexHelper
  all_goals simp
  all_goals omega

/-- The `copyTableToStruct` helper: allocate a zero struct, record a
pointer to it under the table's identity unless the table is empty,
build the field-association map (tags take precedence over declared
names), then for every table pair look up the mapped field: missing or
unsettable fields are skipped, and a field conversion error is discarded
— the field is assigned the zero value the conversion left behind. -/
def copyTableToStruct (tid : Nat) (tes : List (LuaVal × LuaVal)) (dest : RVal) (vis : VisitedG) :
    LRes × VisitedG :=
  let t := dest.typeD
  let fs := structFieldsOfType t
  let vals0 := zeroFields fs
  let vis1 := if !luaIsEmpty tes then (tid, GoVal.vptr t 0 (.vstruct fs vals0)) :: vis else vis
  let fm := buildFields fs []
  match tableToStructPairs tes fs fm vals0 vis1 with
  | (some msg, _, vis2) => (.panicked msg, vis2)
  | (none, vals, vis2) => (.ok (.vstruct fs vals), vis2)
termination_by (sizeOf tes, 3)
decreasing_by
  apply natLexHelper
  right
  exact ⟨rfl, by omega⟩

/-- The pair loop of `copyTableToStruct`. -/
def tableToStructPairs (tes : List (LuaVal × LuaVal)) (fs : List (String × String × GoType))
    (fm : List (String × String)) (vals : List GoVal) (vis : VisitedG) :
    Option String × List GoVal × VisitedG :=
  match tes with
  | [] => (none, vals, vis)
  | (k, w) :: rest =>
      let key := luaToString k
      let fname := lookupStr fm key
      match fieldIdxByName fs fname with
      | none => tableToStructPairs rest fs fm vals vis
      | some j =>
          if canSetField fname then
            let ft := fieldTypeAt fs j
            match luaToGo w (.slot ft) vis with
            | (.panicked msg, vis1) => (some msg, vals, vis1)
            | (.ok v, vis1) => tableToStructPairs rest fs fm (vals.set j v) vis1
            | (_, vis1) => tableToStructPairs rest fs fm (vals.set j (zeroValue ft)) vis1
          else tableToStructPairs rest fs fm vals vis
termination_by (sizeOf tes, 2)
decreasing_by
  all_goals apply natLexHelper
  all_goals simp
  all_goals omega

end

/-- The destination argument supplied to the top-level `LuaToGo`: an
arbitrary Go interface value — a non-pointer, a typed nil pointer, or a
valid pointer to a slot of some static type. -/
inductive GoDest where
  | nonPtr (t : GoType)
  | nilPtr (t : GoType)
  | ptrTo (t : GoType)
  deriving Repr

/-- The top-level `LuaToGo`: reject non-pointer destinations with a
plain "not a pointer" error, then dereference the pointer (a nil
pointer dereferences to the invalid Value) and convert with a fresh
visited set. -/
def LuaToGo (lv : LuaVal) (dest : GoDest) : LRes :=
  match dest with
  | .nonPtr _ => .plainErr "not a pointer"
  | .nilPtr _ => (luaToGo lv .invalid []).1
  | .ptrTo t => (luaToGo lv (.slot t) []).1

/-- The reflect signature of a bridged Go function: its declared
parameter types (`NumIn`/`In`, the last being the slice type of the
variadic parameter when `variadic` holds, per `IsVariadic`). -/
structure GoFunType where
  inTypes : List GoType
  variadic : Bool

/-- The fixed-parameter loop of the closure built by `goLuaFunc`: each
declared parameter is converted from the next stack position into a
freshly allocated slot of its declared type (an absent position is
`LUA_TNONE` and fails).  The first failure raises a script error,
modelled as the Except error. -/
def convArgs : List GoType → List LuaVal → Except LRes (List GoVal)
  | [], _ => .ok []
  | t :: ts, args =>
      match LuaToGo (args.headD .tnone) (.ptrTo t) with
      | .ok v => (convArgs ts (args.drop 1)).map (fun l => v :: l)
      | e => .error e

/-- The variadic loop of the closure built by `goLuaFunc`: every stack
position beyond the declared parameters is converted into a fresh slot
of the variadic element type. -/
def convExtras (te : GoType) : List LuaVal → Except LRes (List GoVal)
  | [] => .ok []
  | a :: rest =>
      match LuaToGo a (.ptrTo te) with
      | .ok v => (convExtras te rest).map (fun l => v :: l)
      | e => .error e

/-- The element type of the trailing variadic parameter
(`tArgs[n-1].Elem()`). -/
def elemOfLast (ts : List GoType) : GoType :=
  match ts.getLast? with
  | some t => t.elem
  | none => .iface

/-- The argument-marshaling phase of the closure `goLuaFunc` builds: for
a variadic callable the declared parameters are all but the last, each
converted from its stack position, then every extra script argument is
converted to the variadic element type; for a non-variadic callable the
declared parameters alone are converted (extra script arguments are
ignored).  The result is the reflect argument list handed to
`fun.Call`, which packs the trailing values into the variadic slice
itself. -/
def goLuaFuncArgs (ft : GoFunType) (luaArgs : List LuaVal) : Except LRes (List GoVal) :=
  let tArgs := if ft.variadic then ft.inTypes.dropLast else ft.inTypes
  match convArgs tArgs luaArgs with
  | .error e => .error e
  | .ok fixed =>
      if ft.variadic then
        let lastT := elemOfLast ft.inTypes
        match convExtras lastT (luaArgs.drop tArgs.length) with
        | .error e => .error e
        | .ok extras => .ok (fixed ++ extras)
      else .ok fixed

mutual

/-- Structural value equality ignoring identities (`reflect.DeepEqual`
on the modelled fragment): types must agree, addresses are not part of
the value, maps compare as key-value sets. -/
def deepEqual : GoVal → GoVal → Bool
  | .vbool a x, .vbool b y => a == b && x == y
  | .vint a x, .vint b y => a == b && x == y
  | .vuint a x, .vuint b y => a == b && x == y
  | .vfloat a x, .vfloat b y => a == b && x == y
  | .vstr a x, .vstr b y => a == b && x == y
  | .vnull, .vnull => true
  | .vptrNil t, .vptrNil u => t.beq u
  | .vptr t _ p, .vptr u _ q => t.beq u && deepEqual p q
  | .vsliceNil t, .vsliceNil u => t.beq u
  | .vslice t _ es, .vslice u _ fs => t.beq u && deepEqualList es fs
  | .varray t es, .varray u fs => t.beq u && deepEqualList es fs
  | .vmapNil k v, .vmapNil k2 v2 => k.beq k2 && v.beq v2
  | .vmap k v _ es, .vmap k2 v2 _ fs =>
      k.beq k2 && v.beq v2 && es.length == fs.length && deepEqualMapIncl es fs
  | .vstruct fs vs, .vstruct gs ws => GoType.beq.fieldsBeq fs gs && deepEqualList vs ws
  | .vifaceNil, .vifaceNil => true
  | .vluaObject a, .vluaObject b => a == b
  | _, _ => false
termination_by a b => sizeOf a + sizeOf b
decreasing_by all_goals (simp_wf; try simp) <;> omega

/-- Pointwise deep equality of element lists. -/
def deepEqualList : List GoVal → List GoVal → Bool
  | [], [] => true
  | x :: xs, y :: ys => deepEqual x y && deepEqualList xs ys
  | _, _ => false
termination_by xs ys => sizeOf xs + sizeOf ys
decreasing_by all_goals (simp_wf; try simp) <;> omega

/-- Every entry of the first map is deeply matched by an entry of the
second. -/
def deepEqualMapIncl : List (GoVal × GoVal) → List (GoVal × GoVal) → Bool
  | [], _ => true
  | (k, v) :: rest, fs => deepEqualMapFind k v fs && deepEqualMapIncl rest fs
termination_by es fs => sizeOf es + sizeOf fs
decreasing_by all_goals (simp_wf; try simp) <;> omega

/-- Some entry of the list has an equal key and a deeply equal value. -/
def deepEqualMapFind (k v : GoVal) : List (GoVal × GoVal) → Bool
  | [] => false
  | (k2, v2) :: rest => (goKeyEq k2 k && deepEqual v2 v) || deepEqualMapFind k v rest
termination_by fs => sizeOf k + sizeOf v + sizeOf fs
decreasing_by all_goals (simp_wf; try simp) <;> omega

end

mutual

/-- A value with every composite identity erased to 0: the shape a
freshly rebuilt value has after a script→host conversion (`MakeSlice`,
`MakeMap` allocate new backing stores, modelled at address 0). -/
def zeroAddr : GoVal → GoVal
  | .vptr t _ p => .vptr t 0 (zeroAddr p)
  | .vslice t _ es => .vslice t 0 (zeroAddrList es)
  | .varray t es => .varray t (zeroAddrList es)
  | .vmap k v _ es => .vmap k v 0 (zeroAddrPairs es)
  | .vstruct fs vs => .vstruct fs (zeroAddrList vs)
  | v => v

/-- Identity erasure on element lists. -/
def zeroAddrList : List GoVal → List GoVal
  | [] => []
  | x :: xs => zeroAddr x :: zeroAddrList xs

/-- Identity erasure on map entries. -/
def zeroAddrPairs : List (GoVal × GoVal) → List (GoVal × GoVal)
  | [] => []
  | (k, v) :: rest => (zeroAddr k, zeroAddr v) :: zeroAddrPairs rest

end

/-! Helper observations used by the theorem statements. -/

/-- Whether a script→host result is a returned error value (a
`LuaToGoError` or a plain error), as opposed to success or a panic. -/
def LRes.isErr : LRes → Bool
  | .convErr _ _ => true
  | .plainErr _ => true
  | _ => false

/-- Whether a Lua value is a proxy userdata. -/
def LuaVal.isProxyUd : LuaVal → Bool
  | .proxy _ _ _ => true
  | _ => false

/-- Whether a Lua value is a plain number. -/
def LuaVal.isNumberVal : LuaVal → Bool
  | .number _ => true
  | _ => false

/-- Whether a Lua value is a table. -/
def LuaVal.isTableVal : LuaVal → Bool
  | .table _ _ => true
  | _ => false

/-- Claim C2, counterexample.  A boolean cannot convert to an int: the
single conversion returns a type-mismatch error.  Yet converting a table
whose sole element is that failing boolean into a slice destination
succeeds (the element is left at its zero value), and likewise into a
map destination (the entry's value is stored as zero): the element
failure is discarded, it does not propagate and abort the conversion
with an error as the claim states. -/
theorem C2_counterexample :
    luaToGo (.boolean true) (.slot (.int false)) [] = (.convErr "boolean" (.slot (.int false)), [])
    ∧ luaToGo (.table 5 [(.number 1, .boolean true)]) (.slot (.slice (.int false))) []
        = (.ok (.vslice (.int false) 0 [.vint false 0]),
           [(5, .vslice (.int false) 0 [.vint false 0])])
    ∧ luaToGo (.table 6 [(.str "k", .boolean true)]) (.slot (.map (.str false) (.int false))) []
        = (.ok (.vmap (.str false) (.int false) 0 [(.vstr false "k", .vint false 0)]),
           [(6, .vmap (.str false) (.int false) 0 [])]) := by
  refine ⟨?_, ?_, ?_⟩ <;>
    simp +decide [luaToGo, ltypename, copyTableToSlice, copyTableToMap, tableToSliceElems,
      tableToMapPairs, objLen, objLen.go, lookupTable, lookupVis, luaIsEmpty, setTable,
      luaKeyEq, zeroValue, mapSet, goKeyEq, List.find?, RVal.kind, RVal.typeD, GoType.kind,
      GoType.elem, GoType.key]

/-- Claim C2, amended.  In script→host conversion of a Lua table, the
failure of a single element conversion never aborts the conversion, for
any of the three destinations: `copyTableToSlice`, `copyTableToMap` and
`copyTableToStruct` never return an error value (they return success,
leaving failed elements, keys and fields at their zero values; only a Go
panic escapes them). -/
theorem C2_element_failures_never_abort (tid : Nat) (tes : List (LuaVal × LuaVal))
    (dest : RVal) (vis : VisitedG) :
    (copyTableToSlice tid tes dest vis).1.isErr = false
    ∧ (copyTableToMap tid tes dest vis).1.isErr = false
    ∧ (copyTableToStruct tid tes dest vis).1.isErr = false := by
  refine ⟨?_, ?_, ?_⟩
  · simp only [copyTableToSlice]
    split
    · rfl
    · split <;> rfl
  · simp only [copyTableToMap]
    split <;> rfl
  · simp only [copyTableToStruct]
    split <;> rfl

set_option maxHeartbeats 1000000 in
/-- Claim C3, counterexample.  In the host→script direction empty
composites are recorded: converting an empty Go map records its identity
in the visited set, and so does converting an empty slice.  In
consequence two distinct empty slices that share a backing address (as
empty Go slices commonly do, all pointing at the runtime's zero-sized
allocation) are unified to the very same produced table. -/
theorem C3_counterexample :
    (goToLua (.vmap (.str false) (.int false) 7 []) false ⟨[], 0⟩).2.vis = [(7, .table 0 [])]
    ∧ (goToLua (.vslice (.int false) 7 []) false ⟨[], 0⟩).2.vis = [(7, .table 0 [])]
    ∧ GoToLua (.vslice (.slice (.int false)) 1
        [.vslice (.int false) 8 [], .vslice (.int false) 8 []])
        = .table 0 [(.number 1, .table 1 []), (.number 2, .table 1 [])] := by
  refine ⟨?_, ?_, ?_⟩ <;>
    simp +decide [GoToLua, goToLua, copyMapToTable, copySliceToTable, goMapPairs, goSliceElems,
      derefChain, vmark, vpush, mapEntriesOf, elemsOf, setTable, luaKeyEq, sliceAddr, mapAddr,
      GoVal.kind, GoVal.typeOf, GoType.kind, isNil, List.find?]

/-- Claim C3, amended.  Only the script→host direction never records an
empty composite: converting an empty Lua table into any destination
leaves the visited set untouched (slices record only tables of positive
length, maps and structs only non-empty tables).  In the host→script
direction, `copyMapToTable` and `copySliceToTable` mark the map or slice
unconditionally, empty or not (the counterexample above). -/
theorem C3_empty_table_never_recorded (tid : Nat) (t : GoType) (vis : VisitedG) :
    (luaToGo (.table tid []) (.slot t) vis).2 = vis := by
  simp only [luaToGo]
  cases h : lookupVis vis tid with
  | some gv =>
      split
      · split <;> rfl
      · simp_all
  | none =>
      cases t <;>
        simp +decide [copyTableToSlice, copyTableToMap, copyTableToStruct, tableToSliceElems,
          tableToMapPairs, tableToStructPairs, objLen, objLen.go, lookupTable, luaIsEmpty,
          RVal.kind, RVal.typeD, GoType.kind, GoType.elem, GoType.key, List.find?]

/-- Claim C8.  The top-level script→host entry point only rejects
destinations whose reflect kind is not pointer; a typed nil pointer
passes the check, is dereferenced to the invalid Value, and reaches the
conversion switch: with a Lua nil on the stack the conversion panics
(`reflect.Zero` of the invalid type), with a Lua boolean it returns a
type-mismatch error produced inside the conversion — in neither case the
immediate "not a pointer" error the documentation promises for any
destination that is not a non-nil pointer.  (A non-pointer destination
is rejected up front, as documented.) -/
theorem C8_nilPtr_reaches_conversion :
    LuaToGo .nil (.nilPtr (.int false)) = .panicked "reflect: Zero of invalid type"
    ∧ LuaToGo (.boolean true) (.nilPtr (.int false)) = .convErr "boolean" .invalid
    ∧ LuaToGo (.boolean true) (.nonPtr (.int false)) = .plainErr "not a pointer"
    ∧ LuaToGo .nil (.nilPtr (.int false)) ≠ .plainErr "not a pointer"
    ∧ LuaToGo (.boolean true) (.nilPtr (.int false)) ≠ .plainErr "not a pointer" := by
  refine ⟨?_, ?_, rfl, ?_, ?_⟩ <;>
    simp +decide [LuaToGo, luaToGo, ltypename, RVal.kind]

/-- Claim C9.  The guard of the wrap branch — destination kind is
Interface and destination type is the `LuaObject` struct type — is
unsatisfiable (an interface-kind Value never has a struct type), so a
userdata that is not a recognized proxy is never wrapped: every
destination type receives a type-mismatch error, including the
`LuaObject` destination the claim says must be wrapped. -/
theorem C9_userdata_never_wrapped :
    (∀ (uid : Nat) (t : GoType) (vis : VisitedG),
        luaToGo (.userdata uid) (.slot t) vis = (.convErr "userdata" (.slot t), vis))
    ∧ LuaToGo (.userdata 3) (.ptrTo .luaObject) = .convErr "userdata" (.slot .luaObject) := by
  constructor
  · intro uid t vis
    cases t <;> simp +decide [luaToGo, ltypename, GoType.kind, GoType.beq]
  · simp +decide [LuaToGo, luaToGo, ltypename, GoType.kind, GoType.beq]

/-- Claim C5.  In proxy mode a value of a named (non-predeclared)
numeric type is pushed as an opaque proxy userdata, while a value of a
bare predeclared numeric type is pushed as a plain Lua number; and in
copy mode any slice, map, array or struct value is pushed as a table,
never as a proxy. -/
theorem C5_proxy_vs_copy :
    (∀ v : GoVal, numericKind v.kind = true → isNewType v.typeOf = true →
        (GoToLuaProxy v).isProxyUd = true)
    ∧ (∀ v : GoVal, numericKind v.kind = true → isNewType v.typeOf = false →
        (GoToLuaProxy v).isNumberVal = true)
    ∧ (∀ v : GoVal,
        (v.kind = .kslice ∨ v.kind = .kmap ∨ v.kind = .karray ∨ v.kind = .kstruct) →
        (GoToLua v).isTableVal = true) := by
  refine ⟨?_, ?_, ?_⟩
  · intro v hk hn
    cases v <;>
      simp_all +decide [GoVal.kind, GoVal.typeOf, GoType.kind, numericKind, isNewType,
        GoToLuaProxy, goToLua, derefChain, makeValueProxy, LuaVal.isProxyUd]
  · intro v hk hn
    cases v <;>
      simp_all +decide [GoVal.kind, GoVal.typeOf, GoType.kind, numericKind, isNewType,
        GoToLuaProxy, goToLua, derefChain, LuaVal.isNumberVal]
  · intro v hk
    cases v <;>
      simp_all +decide [GoVal.kind, GoVal.typeOf, GoType.kind, GoToLua, goToLua, derefChain,
        vpush, List.find?, copySliceToTable, copyMapToTable, copyStructToTable,
        sliceAddr, mapAddr, ptrAddr] <;>
      rfl

/-- Claim C5, witness. -/
theorem C5_witness :
    (GoToLuaProxy (.vint true 5)).isProxyUd = true
    ∧ (GoToLuaProxy (.vint false 5)).isNumberVal = true
    ∧ (GoToLua (.vslice (.int false) 5 [.vint false 1])).isTableVal = true := by
  refine ⟨C5_proxy_vs_copy.1 (.vint true 5) (by decide) (by decide),
          C5_proxy_vs_copy.2.1 (.vint false 5) (by decide) (by decide),
          C5_proxy_vs_copy.2.2 (.vslice (.int false) 5 [.vint false 1]) (Or.inl (by decide))⟩

/-- Claim C7.  For a struct whose one field is declared `Y` with lua tag
`"x"`, converting a table populates the field from key `"x"` (whatever
value converts there lands in the field), and key `"Y"` is ignored for
that field — its value is not even converted — in either entry order:
the tag replaces the declared name in the field mapping. -/
theorem C7_tag_replaces_declared_name (t : GoType) (a b : LuaVal) (tid : Nat)
    (vis : VisitedG) (v : GoVal)
    (hvis : lookupVis vis tid = none)
    (hconv : (luaToGo a (.slot t)
        ((tid, GoVal.vptr (.struct [("Y", "x", t)]) 0
            (.vstruct [("Y", "x", t)] [zeroValue t])) :: vis)).1 = .ok v) :
    (luaToGo (.table tid [(.str "x", a), (.str "Y", b)])
        (.slot (.struct [("Y", "x", t)])) vis).1
      = .ok (.vstruct [("Y", "x", t)] [v])
    ∧ (luaToGo (.table tid [(.str "Y", b), (.str "x", a)])
        (.slot (.struct [("Y", "x", t)])) vis).1
      = .ok (.vstruct [("Y", "x", t)] [v]) := by
  obtain ⟨vis2, hpair⟩ : ∃ y, luaToGo a (.slot t)
      ((tid, GoVal.vptr (.struct [("Y", "x", t)]) 0
          (.vstruct [("Y", "x", t)] [zeroValue t])) :: vis) = (.ok v, y) :=
    ⟨_, by rw [← hconv]⟩
  constructor <;>
    simp +decide [luaToGo, hvis, copyTableToStruct, tableToStructPairs, structFieldsOfType,
      zeroFields, luaIsEmpty, buildFields, insertStr, lookupStr, luaToString, fieldIdxByName,
      fieldTypeAt, canSetField, List.find?, List.findIdx?, RVal.kind, RVal.typeD, GoType.kind,
      hpair]

/-- Claim C7, witness. -/
theorem C7_witness :
    (luaToGo (.table 1 [(.str "x", .number 3), (.str "Y", .boolean true)])
        (.slot (.struct [("Y", "x", .int false)])) []).1
      = .ok (.vstruct [("Y", "x", .int false)] [.vint false 3])
    ∧ (luaToGo (.table 1 [(.str "Y", .boolean true), (.str "x", .number 3)])
        (.slot (.struct [("Y", "x", .int false)])) []).1
      = .ok (.vstruct [("Y", "x", .int false)] [.vint false 3]) := by
  exact C7_tag_replaces_declared_name (.int false) (.number 3) (.boolean true) 1 []
    (.vint false 3) (by simp [lookupVis, List.find?])
    (by simp +decide [luaToGo, truncRat, zeroValue])

/-- Claim C10.  When a table entry maps to a settable struct field and
the recursive conversion of its value fails with an error, the error is
discarded: the field is assigned the zero value the failed conversion
attempt left behind, and the struct conversion still returns success. -/
theorem C10_struct_field_error_zeroed
    (fs : List (String × String × GoType)) (k lv : LuaVal) (tid : Nat) (vis : VisitedG)
    (j : Nat) (e : String) (d : RVal)
    (hvis : lookupVis vis tid = none)
    (hj : fieldIdxByName fs (lookupStr (buildFields fs []) (luaToString k)) = some j)
    (hset : canSetField (lookupStr (buildFields fs []) (luaToString k)) = true)
    (herr : (luaToGo lv (.slot (fieldTypeAt fs j))
        ((tid, GoVal.vptr (.struct fs) 0 (.vstruct fs (zeroFields fs))) :: vis)).1
      = .convErr e d) :
    (luaToGo (.table tid [(k, lv)]) (.slot (.struct fs)) vis).1
      = .ok (.vstruct fs ((zeroFields fs).set j (zeroValue (fieldTypeAt fs j)))) := by
  obtain ⟨vis2, hpair⟩ : ∃ y, luaToGo lv (.slot (fieldTypeAt fs j))
      ((tid, GoVal.vptr (.struct fs) 0 (.vstruct fs (zeroFields fs))) :: vis)
      = (.convErr e d, y) := ⟨_, by rw [← herr]⟩
  simp +decide [luaToGo, hvis, copyTableToStruct, tableToStructPairs, structFieldsOfType,
    luaIsEmpty, hj, hset, hpair, RVal.kind, RVal.typeD, GoType.kind]

/-- Claim C10, witness. -/
theorem C10_witness :
    (luaToGo (.table 1 [(.str "F", .boolean true)])
        (.slot (.struct [("F", "", .int false)])) []).1
      = .ok (.vstruct [("F", "", .int false)] [.vint false 0]) := by
  have h := C10_struct_field_error_zeroed [("F", "", .int false)] (.str "F") (.boolean true)
    1 [] 0 "boolean" (.slot (.int false))
    (by simp [lookupVis, List.find?])
    (by simp +decide [fieldIdxByName, buildFields, insertStr, lookupStr, luaToString,
          List.findIdx?])
    (by simp +decide [buildFields, insertStr, lookupStr, luaToString, canSetField])
    (by simp +decide [luaToGo, fieldTypeAt, ltypename])
  simpa [zeroFields, zeroValue, fieldTypeAt] using h

/-- Claim C6.  The argument marshaling of a bridged variadic host
function: with declared parameters `ps` and variadic element type `E`,
the built argument list is the declared parameters converted from their
stack positions (each to its declared type, via `convArgs`) followed by
every extra script argument converted to `E` (via `convExtras`), in
order; any failure raises instead.  In particular a callable declared
`(int, ...string)` invoked with `(1, "a", "b")` receives `1, "a", "b"`
(reflect packs the trailing two into the variadic slice) and invoked
with `(1)` receives `1` and no variadic elements. -/
theorem C6_variadic_bridge :
    (∀ (ps : List GoType) (E : GoType) (args : List LuaVal),
        goLuaFuncArgs ⟨ps ++ [.slice E], true⟩ args
          = match convArgs ps args with
            | .error e => .error e
            | .ok fixed =>
                match convExtras E (args.drop ps.length) with
                | .error e => .error e
                | .ok extras => .ok (fixed ++ extras))
    ∧ goLuaFuncArgs ⟨[.int false, .slice (.str false)], true⟩ [.number 1, .str "a", .str "b"]
        = .ok [.vint false 1, .vstr false "a", .vstr false "b"]
    ∧ goLuaFuncArgs ⟨[.int false, .slice (.str false)], true⟩ [.number 1]
        = .ok [.vint false 1] := by
  refine ⟨?_, ?_, ?_⟩
  · intro ps E args
    simp [goLuaFuncArgs, elemOfLast, List.dropLast_concat, List.getLast?_concat, GoType.elem]
  · simp +decide [goLuaFuncArgs, convArgs, convExtras, elemOfLast, LuaToGo, luaToGo,
      truncRat, List.dropLast_concat, List.getLast?_concat, GoType.elem, Except.map]
  · simp +decide [goLuaFuncArgs, convArgs, convExtras, elemOfLast, LuaToGo, luaToGo,
      truncRat, List.dropLast_concat, List.getLast?_concat, GoType.elem, Except.map]

/-! Infrastructure for claim C4: slices whose elements are nil pointers
or pointers to scalar (or `Null`) values. -/

/-- What `goToLua` pushes, in copy mode, for a pointer element whose
target chain ends in a scalar or in the `Null` sentinel; the second
component is the Lua-identity counter after the push. -/
def pushScalar (e : GoVal) (c : Nat) : LuaVal × Nat :=
  match derefChain e with
  | .vbool _ b => (.boolean b, c)
  | .vint _ n => (.number ((roundF64 n : Int) : Rat), c)
  | .vuint _ n => (.number ((roundF64Nat n : Nat) : Rat), c)
  | .vfloat _ q => (.number q, c)
  | .vstr _ s => (.str s, c)
  | .vnull => (.proxy c .vnull .interfaceMeta, c + 1)
  | _ => (.nil, c)

/-- A pointer value that is nil or points (through any pointer chain) to
a scalar or to the `Null` sentinel. -/
def simplePtrVal : GoVal → Bool
  | .vptrNil _ => true
  | .vptr _ _ p =>
      match derefChain p with
      | .vbool _ _ => true
      | .vint _ _ => true
      | .vuint _ _ => true
      | .vfloat _ _ => true
      | .vstr _ _ => true
      | .vnull => true
      | _ => false
  | _ => false

/-- Scalar Lua values and the `Null` proxy: what simple pointer elements
push. -/
def simpleLua : LuaVal → Bool
  | .boolean _ => true
  | .number _ => true
  | .str _ => true
  | .proxy _ .vnull _ => true
  | _ => false

/-- The table entries `copySliceToTable` builds for a list of simple
pointer elements, keyed 1-based from `i`, with `c` the Lua-identity
counter. -/
def pushSimple : List GoVal → Nat → Nat → List (LuaVal × LuaVal) × Nat
  | [], _, c => ([], c)
  | e :: rest, i, c =>
      let p := if isNil e then ((.proxy c .vnull .interfaceMeta : LuaVal), c + 1)
               else pushScalar e c
      let pr := pushSimple rest (i + 1) p.2
      ((.number ((i : Nat) : Rat), p.1) :: pr.1, pr.2)

theorem goToLua_vnull (st : GState) :
    goToLua .vnull false st
      = (.proxy st.next .vnull .interfaceMeta, { st with next := st.next + 1 }) := by
  simp [goToLua, derefChain, makeValueProxy]

theorem goToLua_pushScalar (e : GoVal) (st : GState)
    (h : simplePtrVal e = true) (hn : isNil e = false) :
    goToLua e false st
      = ((pushScalar e st.next).1, { st with next := (pushScalar e st.next).2 }) := by
  cases e <;> simp_all [simplePtrVal, isNil]
  rename_i t a p
  cases hd : derefChain p <;>
    (simp only [goToLua, derefChain]; split <;> simp_all [pushScalar, makeValueProxy, derefChain])

theorem pushScalar_ne_nil (e : GoVal) (c : Nat) (h : simplePtrVal e = true)
    (hn : isNil e = false) : (pushScalar e c).1 ≠ .nil := by
  cases e <;> simp_all [simplePtrVal, isNil]
  rename_i t a p
  cases hd : derefChain p <;> simp_all [pushScalar, derefChain]

theorem simpleLua_push (e : GoVal) (c : Nat) (h : simplePtrVal e = true)
    (hn : isNil e = false) : simpleLua (pushScalar e c).1 = true := by
  cases e <;> simp_all [simplePtrVal, isNil]
  rename_i t a p
  cases hd : derefChain p <;> simp_all [pushScalar, simpleLua, derefChain]

theorem setTable_fresh (acc : List (LuaVal × LuaVal)) (k v : LuaVal)
    (hk : ∀ p ∈ acc, luaKeyEq p.1 k = false) (hknil : k ≠ .nil) (hv : v ≠ .nil) :
    setTable acc k v = acc ++ [(k, v)] := by
  have hfind : acc.find? (fun p => luaKeyEq p.1 k) = none :=
    List.find?_eq_none.mpr (by intro p hp; simp [hk p hp])
  cases k <;>
    first
    | exact absurd rfl hknil
    | (cases v <;>
        first
        | exact absurd rfl hv
        | simp [setTable, hfind])

/-- The element loop of `copySliceToTable` on simple pointer elements:
it appends the pushed entries in order and only advances the identity
counter. -/
theorem goSliceElems_pushSimple :
    ∀ (elems : List GoVal) (i : Nat) (acc : List (LuaVal × LuaVal)) (st : GState),
      (∀ e ∈ elems, simplePtrVal e = true) →
      (∀ p ∈ acc, (∃ j : Nat, p.1 = .number ((j : Nat) : Rat) ∧ j < i) ∧ p.2 ≠ .nil) →
      goSliceElems elems i acc st
        = (acc ++ (pushSimple elems i st.next).1,
           { st with next := (pushSimple elems i st.next).2 })
  | [], i, acc, st, _, _ => by simp [goSliceElems, pushSimple]
  | e :: rest, i, acc, st, hall, hacc => by
      have he : simplePtrVal e = true := hall e (List.mem_cons_self _ _)
      have hrest : ∀ x ∈ rest, simplePtrVal x = true :=
        fun x hx => hall x (List.mem_cons_of_mem _ hx)
      have hkeyfresh : ∀ p ∈ acc, luaKeyEq p.1 (.number ((i : Nat) : Rat)) = false := by
        intro p hp
        obtain ⟨⟨j, hj1, hj2⟩, _⟩ := hacc p hp
        rw [hj1]
        simp [luaKeyEq]
        intro hcast
        exact absurd (Nat.cast_injective hcast) (Nat.ne_of_lt hj2)
      cases hni : isNil e with
      | true =>
          have he2 : (if isNil e then GoVal.vnull else e) = GoVal.vnull := by simp [hni]
          have hstep := goToLua_vnull st
          have hacc2 : ∀ p ∈ acc ++ [(LuaVal.number ((i : Nat) : Rat),
              LuaVal.proxy st.next .vnull .interfaceMeta)],
              (∃ j : Nat, p.1 = .number ((j : Nat) : Rat) ∧ j < i + 1) ∧ p.2 ≠ .nil := by
            intro p hp
            rcases List.mem_append.mp hp with hp | hp
            · obtain ⟨⟨j, hj1, hj2⟩, h2⟩ := hacc p hp
              exact ⟨⟨j, hj1, Nat.lt_succ_of_lt hj2⟩, h2⟩
            · simp at hp
              subst hp
              exact ⟨⟨i, rfl, Nat.lt_succ_self i⟩, by simp⟩
          have ih := goSliceElems_pushSimple rest (i + 1)
            (acc ++ [(.number ((i : Nat) : Rat), .proxy st.next .vnull .interfaceMeta)])
            { st with next := st.next + 1 } hrest hacc2
          simp only [goSliceElems, he2, hstep]
          rw [setTable_fresh acc _ _ hkeyfresh (by simp) (by simp)]
          simp only [ih, pushSimple, hni]
          simp [List.append_assoc]
      | false =>
          have he2 : (if isNil e then GoVal.vnull else e) = e := by simp [hni]
          have hstep := goToLua_pushScalar e st he hni
          have hpnil := pushScalar_ne_nil e st.next he hni
          have hacc2 : ∀ p ∈ acc ++ [(LuaVal.number ((i : Nat) : Rat),
              (pushScalar e st.next).1)],
              (∃ j : Nat, p.1 = .number ((j : Nat) : Rat) ∧ j < i + 1) ∧ p.2 ≠ .nil := by
            intro p hp
            rcases List.mem_append.mp hp with hp | hp
            · obtain ⟨⟨j, hj1, hj2⟩, h2⟩ := hacc p hp
              exact ⟨⟨j, hj1, Nat.lt_succ_of_lt hj2⟩, h2⟩
            · simp at hp
              subst hp
              exact ⟨⟨i, rfl, Nat.lt_succ_self i⟩, hpnil⟩
          have ih := goSliceElems_pushSimple rest (i + 1)
            (acc ++ [(.number ((i : Nat) : Rat), (pushScalar e st.next).1)])
            { st with next := (pushScalar e st.next).2 } hrest hacc2
          simp only [goSliceElems, he2, hstep]
          rw [setTable_fresh acc _ _ hkeyfresh (by simp) hpnil]
          simp only [ih, pushSimple, hni]
          simp [List.append_assoc]

theorem pushSimple_length : ∀ (elems : List GoVal) (i c : Nat),
    ((pushSimple elems i c).1).length = elems.length
  | [], _, _ => rfl
  | e :: rest, i, c => by
      simp [pushSimple, pushSimple_length rest]

theorem simpleLua_ne_nil {l : LuaVal} (h : simpleLua l = true) : l ≠ .nil := by
  cases l <;> simp_all [simpleLua]

theorem lookup_pushSimple_in : ∀ (elems : List GoVal) (i c k : Nat),
    (∀ e ∈ elems, simplePtrVal e = true) → i ≤ k → k < i + elems.length →
    simpleLua (lookupTable (pushSimple elems i c).1 (.number ((k : Nat) : Rat))) = true
  | [], i, c, k, _, h1, h2 => by simp at h2; omega
  | e :: rest, i, c, k, hall, h1, h2 => by
      have he : simplePtrVal e = true := hall e (List.mem_cons_self _ _)
      by_cases hik : k = i
      · subst hik
        cases hni : isNil e with
        | true =>
            simp [pushSimple, hni, lookupTable, List.find?, luaKeyEq, simpleLua]
        | false =>
            simp [pushSimple, hni, lookupTable, List.find?, luaKeyEq,
              simpleLua_push e c he hni]
      · have hk2 : luaKeyEq (.number ((i : Nat) : Rat)) (.number ((k : Nat) : Rat)) = false := by
          simp [luaKeyEq]
          intro hcast
          exact absurd (Nat.cast_injective hcast).symm hik
        have ih := lookup_pushSimple_in rest (i + 1) (if isNil e then c + 1
          else (pushScalar e c).2) k
          (fun x hx => hall x (List.mem_cons_of_mem _ hx)) (by omega) (by simp at h2; omega)
        cases hni : isNil e with
        | true =>
            simpa [pushSimple, hni, lookupTable, List.find?, hk2] using ih
        | false =>
            simpa [pushSimple, hni, lookupTable, List.find?, hk2] using ih

theorem lookup_pushSimple_out : ∀ (elems : List GoVal) (i c k : Nat),
    (k < i ∨ i + elems.length ≤ k) →
    lookupTable (pushSimple elems i c).1 (.number ((k : Nat) : Rat)) = .nil
  | [], i, c, k, _ => by simp [pushSimple, lookupTable, List.find?]
  | e :: rest, i, c, k, hout => by
      have hik : k ≠ i := by simp at hout; omega
      have hk2 : luaKeyEq (.number ((i : Nat) : Rat)) (.number ((k : Nat) : Rat)) = false := by
        simp [luaKeyEq]
        intro hcast
        exact absurd (Nat.cast_injective hcast).symm hik
      have ih := lookup_pushSimple_out rest (i + 1) (if isNil e then c + 1
        else (pushScalar e c).2) k (by simp at hout ⊢; omega)
      cases hni : isNil e with
      | true => simpa [pushSimple, hni, lookupTable, List.find?, hk2] using ih
      | false => simpa [pushSimple, hni, lookupTable, List.find?, hk2] using ih

theorem objLen_go_full (es : List (LuaVal × LuaVal)) :
    ∀ (fuel acc : Nat),
      (∀ j, acc < j → j ≤ acc + fuel → lookupTable es (.number ((j : Nat) : Rat)) ≠ .nil) →
      objLen.go es fuel acc = acc + fuel
  | 0, acc, _ => by simp [objLen.go]
  | fuel + 1, acc, h => by
      have h1 := h (acc + 1) (by omega) (by omega)
      have ih := objLen_go_full es fuel (acc + 1) (fun j hj1 hj2 => h j (by omega) (by omega))
      simp only [objLen.go]
      cases hl : lookupTable es (.number ((acc + 1 : Nat) : Rat)) with
      | nil => exact absurd hl h1
      | _ => rw [ih]; omega

/-- The sequential table built from simple pointer elements reports its
exact element count as its length. -/
theorem objLen_pushSimple (elems : List GoVal) (c : Nat)
    (hall : ∀ e ∈ elems, simplePtrVal e = true) :
    objLen (pushSimple elems 1 c).1 = elems.length := by
  have hlen := pushSimple_length elems 1 c
  have hfull := objLen_go_full (pushSimple elems 1 c).1 elems.length 0 (by
    intro j hj1 hj2
    exact simpleLua_ne_nil (lookup_pushSimple_in elems 1 c j hall (by omega) (by omega)))
  simp only [objLen, hlen]
  simpa using hfull

theorem set_replicate_self {α : Type} : ∀ (n j : Nat) (a : α),
    (List.replicate n a).set j a = List.replicate n a
  | 0, _, _ => rfl
  | n + 1, 0, a => by simp [List.replicate_succ]
  | n + 1, j + 1, a => by
      simp [List.replicate_succ, set_replicate_self n j a]

theorem luaToGo_simple_at_ptr (l : LuaVal) (E : GoType) (vis : VisitedG)
    (h : simpleLua l = true) :
    luaToGo l (.slot (.ptr E)) vis = (.ok (.vptrNil E), vis)
    ∨ ∃ s d, luaToGo l (.slot (.ptr E)) vis = (.convErr s d, vis) := by
  cases l with
  | boolean b => exact Or.inr ⟨"boolean", .slot (.ptr E),
      by simp +decide [luaToGo, ltypename, RVal.kind, GoType.kind]⟩
  | number q => exact Or.inr ⟨"number", .slot (.ptr E),
      by simp +decide [luaToGo, ltypename, RVal.kind, GoType.kind]⟩
  | str s => exact Or.inr ⟨"string", .slot (.ptr E),
      by simp +decide [luaToGo, ltypename, RVal.kind, GoType.kind]⟩
  | proxy id pv tag =>
      cases pv <;> simp_all [simpleLua]
      exact Or.inl (by simp [luaToGo, zeroValue])
  | nil => simp_all [simpleLua]
  | tnone => simp_all [simpleLua]
  | table tid tes => simp_all [simpleLua]
  | userdata uid => simp_all [simpleLua]

/-- The element loop of `copyTableToSlice` over a table of simple
elements writes the element type's zero — a nil pointer — at every
position (a `Null` proxy element converts to the zero value, every
scalar element fails and is discarded as zero), leaving the visited set
untouched. -/
theorem sliceLoop_simple (ents : List (LuaVal × LuaVal)) (E : GoType) (n : Nat) :
    ∀ (count i : Nat) (vis : VisitedG),
      1 ≤ i → i - 1 + count ≤ n →
      (∀ k, i ≤ k → k < i + count →
        simpleLua (lookupTable ents (.number ((k : Nat) : Rat))) = true) →
      tableToSliceElems ents (.ptr E) (List.replicate n (.vptrNil E)) i count vis
        = (none, List.replicate n (.vptrNil E), vis)
  | 0, i, vis, _, _, _ => by simp [tableToSliceElems]
  | count + 1, i, vis, h1, h2, hlk => by
      have hl := hlk i (le_refl i) (by omega)
      have hbound : i - 1 < (List.replicate n (GoVal.vptrNil E)).length := by
        simp; omega
      have ih := sliceLoop_simple ents E n count (i + 1) vis (by omega) (by omega)
        (fun k hk1 hk2 => hlk k (by omega) (by omega))
      rcases luaToGo_simple_at_ptr (lookupTable ents (.number ((i : Nat) : Rat))) E vis hl with
        hok | ⟨s, d, herr⟩
      · simp only [tableToSliceElems, hok]
        rw [if_pos hbound, set_replicate_self]
        exact ih
      · simp only [tableToSliceElems, herr, zeroValue]
        rw [if_pos hbound, set_replicate_self]
        exact ih

/-- Claim C4.  A slice of pointers — each element nil or pointing to a
scalar or `Null` target — containing a nil pointer at index `i`,
converted host→script (the nil element is replaced by the `Null`
sentinel, pushed as a proxy) and back script→host into a
slice-of-pointer type, yields a nil pointer at index `i`, not a non-nil
zero-initialized value. -/
theorem C4_null_sentinel_roundtrip (T E E0 : GoType) (addr : Nat) (elems : List GoVal)
    (i : Nat)
    (hall : ∀ e ∈ elems, simplePtrVal e = true)
    (hi : elems.get? i = some (.vptrNil E0)) :
    LuaToGo (GoToLua (.vslice T addr elems)) (.ptrTo (.slice (.ptr E)))
      = .ok (.vslice (.ptr E) 0 (List.replicate elems.length (.vptrNil E)))
    ∧ (List.replicate elems.length (GoVal.vptrNil E)).get? i = some (.vptrNil E) := by
  have hilen : i < elems.length := by
    by_contra hcon
    rw [List.get?_eq_none.mpr (by omega)] at hi
    exact Option.noConfusion hi
  have hfwd : GoToLua (.vslice T addr elems) = .table 0 (pushSimple elems 1 1).1 := by
    have helems := goSliceElems_pushSimple elems 1 []
      ⟨[(sliceAddr (.vslice T addr elems), .table 0 [])], 1⟩ hall (by simp)
    simp only [GoToLua, goToLua, derefChain, Bool.false_and, if_neg]
    simp [vpush, copySliceToTable, derefChain, elemsOf, GoVal.kind, GoVal.typeOf,
      GoType.kind, vmark, helems]
  constructor
  · rw [hfwd]
    have hobj := objLen_pushSimple elems 1 hall
    have hloop := sliceLoop_simple (pushSimple elems 1 1).1 E elems.length elems.length 1 (
      if 0 < elems.length then
        [(0, GoVal.vslice (.ptr E) 0 (List.replicate elems.length (.vptrNil E)))]
      else ([] : VisitedG)) (by omega) (by omega)
      (fun k hk1 hk2 => lookup_pushSimple_in elems 1 1 k hall hk1 (by omega))
    simp only [LuaToGo, luaToGo, lookupVis, List.find?, RVal.kind, GoType.kind]
    simp [copyTableToSlice, RVal.kind, RVal.typeD, GoType.kind, GoType.elem, hobj,
      zeroValue, hloop]
  · rw [List.get?_eq_get (by simp; omega)]
    simp

/-- Claim C4, witness. -/
theorem C4_witness :
    LuaToGo (GoToLua (.vslice (.ptr (.int false)) 5
        [.vptr (.int false) 3 (.vint false 42), .vptrNil (.int false)]))
      (.ptrTo (.slice (.ptr (.int false))))
      = .ok (.vslice (.ptr (.int false)) 0
          [.vptrNil (.int false), .vptrNil (.int false)])
    ∧ ([GoVal.vptrNil (.int false), GoVal.vptrNil (.int false)]).get? 1
        = some (.vptrNil (.int false)) := by
  have h := C4_null_sentinel_roundtrip (.ptr (.int false)) (.int false) (.int false) 5
    [.vptr (.int false) 3 (.vint false 42), .vptrNil (.int false)] 1
    (by intro e he; fin_cases he <;> rfl) rfl
  simpa [List.replicate] using h

/-! Infrastructure for claim C1: the plain-data universe and the
round-trip argument. -/

mutual

theorem GoType.beq_refl : ∀ (t : GoType), t.beq t = true
  | .bool a => by simp [GoType.beq]
  | .int a => by simp [GoType.beq]
  | .uint a => by simp [GoType.beq]
  | .float a => by simp [GoType.beq]
  | .str a => by simp [GoType.beq]
  | .nullT => rfl
  | .ptr a => by simp [GoType.beq, GoType.beq_refl a]
  | .slice a => by simp [GoType.beq, GoType.beq_refl a]
  | .array m a => by simp [GoType.beq, GoType.beq_refl a]
  | .map k v => by simp [GoType.beq, GoType.beq_refl k, GoType.beq_refl v]
  | .struct fs => by simp [GoType.beq, fieldsBeq_refl fs]
  | .iface => rfl
  | .luaObject => rfl

theorem fieldsBeq_refl : ∀ (fs : List (String × String × GoType)),
    GoType.beq.fieldsBeq fs fs = true
  | [] => rfl
  | (n, t, a) :: rest => by
      simp [GoType.beq.fieldsBeq, GoType.beq_refl a, fieldsBeq_refl rest]

end

mutual

theorem GoType.beq_eq : ∀ (a b : GoType), a.beq b = true → a = b
  | .bool x, .bool y, h => by simp [GoType.beq] at h; rw [h]
  | .int x, .int y, h => by simp [GoType.beq] at h; rw [h]
  | .uint x, .uint y, h => by simp [GoType.beq] at h; rw [h]
  | .float x, .float y, h => by simp [GoType.beq] at h; rw [h]
  | .str x, .str y, h => by simp [GoType.beq] at h; rw [h]
  | .nullT, .nullT, _ => rfl
  | .ptr x, .ptr y, h => by
      simp only [GoType.beq] at h
      rw [GoType.beq_eq x y h]
  | .slice x, .slice y, h => by
      simp only [GoType.beq] at h
      rw [GoType.beq_eq x y h]
  | .array m x, .array n y, h => by
      simp only [GoType.beq, Bool.and_eq_true, beq_iff_eq] at h
      rw [h.1, GoType.beq_eq x y h.2]
  | .map k v, .map k2 v2, h => by
      simp only [GoType.beq, Bool.and_eq_true] at h
      rw [GoType.beq_eq k k2 h.1, GoType.beq_eq v v2 h.2]
  | .struct fs, .struct gs, h => by
      rw [fieldsBeq_eq fs gs (by simpa [GoType.beq] using h)]
  | .iface, .iface, _ => rfl
  | .luaObject, .luaObject, _ => rfl

theorem fieldsBeq_eq : ∀ (fs gs : List (String × String × GoType)),
    GoType.beq.fieldsBeq fs gs = true → fs = gs
  | [], [], _ => rfl
  | (n1, t1, a) :: xs, (n2, t2, b) :: ys, h => by
      simp only [GoType.beq.fieldsBeq, Bool.and_eq_true, beq_iff_eq] at h
      rw [h.1.1.1, h.1.1.2, GoType.beq_eq a b h.1.2, fieldsBeq_eq xs ys h.2]

end

/-- Script-visible key of a struct field: the lua tag when non-empty,
the declared name otherwise. -/
def keyOfField (f : String × String × GoType) : String :=
  if f.2.1 != "" then f.2.1 else f.1

/-- Script-visible keys of a struct type's fields, in order. -/
def keysOfFields (fs : List (String × String × GoType)) : List String :=
  fs.map keyOfField

/-- Declared names of a struct type's fields, in order. -/
def namesOfFields (fs : List (String × String × GoType)) : List String :=
  fs.map (fun f => f.1)

/-- The string payload of a string-typed map key. -/
def keyStrOf : GoVal → String
  | .vstr _ s => s
  | _ => ""

/-- Key strings of a map value's entries, in order. -/
def keyStrs (ps : List (GoVal × GoVal)) : List String :=
  ps.map (fun p => keyStrOf p.1)

/-- A struct type whose fields round-trip: script-visible keys pairwise
distinct (the spec leaves colliding annotations undefined), declared
names pairwise distinct (as Go guarantees) and every field exported
(settable). -/
def plainFieldsOK (fs : List (String × String × GoType)) : Bool :=
  decide (keysOfFields fs).Nodup && decide (namesOfFields fs).Nodup
    && fs.all (fun f => canSetField f.1)

mutual

/-- The plain-data universe of the round-trip claim: acyclic values
built from bare scalars (integers exactly representable in a float64),
slices, string-keyed maps with distinct keys, and structs with settable
fields; values carry the types their containers declare. -/
def plainVal : GoVal → Bool
  | .vbool false _ => true
  | .vint false n => roundF64 n == n
  | .vuint false n => roundF64Nat n == n
  | .vfloat false _ => true
  | .vstr false _ => true
  | .vslice t _ es => plainElems t es
  | .vmap kt vt _ ps =>
      kt.beq (.str false) && decide (keyStrs ps).Nodup && plainPairs vt ps
  | .vstruct fs vs => plainFieldsOK fs && plainVals fs vs
  | _ => false

/-- Elements of a plain slice: each of the element type and plain. -/
def plainElems (t : GoType) : List GoVal → Bool
  | [] => true
  | e :: rest => (e.typeOf).beq t && plainVal e && plainElems t rest

/-- Entries of a plain map: bare string keys, values of the value type
and plain. -/
def plainPairs (vt : GoType) : List (GoVal × GoVal) → Bool
  | [] => true
  | (k, w) :: rest =>
      (match k with | .vstr false _ => true | _ => false)
      && (w.typeOf).beq vt && plainVal w && plainPairs vt rest

/-- Field values of a plain struct: aligned with the field descriptors,
each of its field's type and plain. -/
def plainVals : List (String × String × GoType) → List GoVal → Bool
  | [], [] => true
  | (_, _, ft) :: fr, w :: vr => (w.typeOf).beq ft && plainVal w && plainVals fr vr
  | _, _ => false

end

mutual

/-- The composite identities occurring in a value, in depth-first
order. -/
def addrsOf : GoVal → List Nat
  | .vptr _ a p => a :: addrsOf p
  | .vslice _ a es => a :: addrsList es
  | .varray _ es => addrsList es
  | .vmap _ _ a ps => a :: addrsPairs ps
  | .vstruct _ vs => addrsList vs
  | _ => []

/-- Identities of a list of values. -/
def addrsList : List GoVal → List Nat
  | [] => []
  | e :: rest => addrsOf e ++ addrsList rest

/-- Identities of a list of map entries. -/
def addrsPairs : List (GoVal × GoVal) → List Nat
  | [] => []
  | (k, w) :: rest => addrsOf k ++ addrsOf w ++ addrsPairs rest

end

mutual

/-- The table identities occurring in a Lua value, in depth-first
order (only tables participate in the script→host visited set). -/
def idsOfLua : LuaVal → List Nat
  | .table id es => id :: idsEntries es
  | _ => []

/-- Table identities of a table's entry list. -/
def idsEntries : List (LuaVal × LuaVal) → List Nat
  | [] => []
  | (k, v) :: rest => idsOfLua k ++ idsOfLua v ++ idsEntries rest

end

mutual

/-- The copy-mode encoding relation between a plain Go value and the Lua
value `goToLua` builds for it, identities ignored: scalars map to the
corresponding primitives (integers through `roundF64`, exact on the
plain universe), slices to sequential tables keyed from 1, maps to
tables keyed by the key strings, structs to tables keyed by the fields'
script-visible keys, all in order. -/
def encVal : GoVal → LuaVal → Bool
  | .vbool _ b, .boolean b2 => b == b2
  | .vint _ n, .number q => q == ((n : Int) : Rat)
  | .vuint _ n, .number q => q == ((n : Nat) : Rat)
  | .vfloat _ x, .number q => q == x
  | .vstr _ s, .str s2 => s == s2
  | .vslice _ _ es, .table _ ents => encSeq 1 es ents
  | .vmap _ _ _ ps, .table _ ents => encPairs ps ents
  | .vstruct fs vs, .table _ ents => encFields fs vs ents
  | _, _ => false

/-- Sequential-table encoding of slice elements, keys counting from
`i`. -/
def encSeq (i : Nat) : List GoVal → List (LuaVal × LuaVal) → Bool
  | [], [] => true
  | e :: er, (k, l) :: lr =>
      (match k with | .number q => q == ((i : Nat) : Rat) | _ => false)
      && encVal e l && encSeq (i + 1) er lr
  | _, _ => false

/-- Table encoding of map entries. -/
def encPairs : List (GoVal × GoVal) → List (LuaVal × LuaVal) → Bool
  | [], [] => true
  | (gk, gv) :: gr, (lk, lv) :: lr =>
      (match gk, lk with | .vstr _ s, .str s2 => s == s2 | _, _ => false)
      && encVal gv lv && encPairs gr lr
  | _, _ => false

/-- Table encoding of struct fields under their script-visible keys. -/
def encFields : List (String × String × GoType) → List GoVal → List (LuaVal × LuaVal) → Bool
  | [], [], [] => true
  | f :: fr, w :: vr, (lk, lv) :: lr =>
      (match lk with | .str s => s == keyOfField f | _ => false)
      && encVal w lv && encFields fr vr lr
  | _, _, _ => false

end

theorem encVal_ne_nil {v : GoVal} {lv : LuaVal} (h : encVal v lv = true) : lv ≠ .nil := by
  cases v <;> cases lv <;> simp_all [encVal]

theorem plainVal_not_isNil {v : GoVal} (h : plainVal v = true) : isNil v = false := by
  cases v <;> simp_all [plainVal, isNil]

theorem plainVal_ne_vnull {v : GoVal} (h : plainVal v = true) : v ≠ .vnull := by
  cases v <;> simp_all [plainVal]

theorem zeroAddr_ne_vnull {v : GoVal} (h : plainVal v = true) : zeroAddr v ≠ .vnull := by
  cases v <;> simp_all [plainVal, zeroAddr]

theorem zeroAddrList_eq_map : ∀ (xs : List GoVal), zeroAddrList xs = xs.map zeroAddr
  | [] => rfl
  | x :: xs => by simp [zeroAddrList, zeroAddrList_eq_map xs]

theorem encSeq_length : ∀ (i : Nat) (es : List GoVal) (ents : List (LuaVal × LuaVal)),
    encSeq i es ents = true → ents.length = es.length
  | _, [], [], _ => rfl
  | i, e :: er, (k, l) :: lr, h => by
      simp only [encSeq, Bool.and_eq_true] at h
      simp [encSeq_length (i + 1) er lr h.2]
  | _, [], _ :: _, h => by simp [encSeq] at h
  | _, _ :: _, [], h => by simp [encSeq] at h

/-- Successive overwrites of list positions starting at `j`: the shape
in which the element loops of `copyTableToSlice` and
`copyTableToStruct` fill their freshly allocated zero containers. -/
def setFrom (cur : List GoVal) (j : Nat) : List GoVal → List GoVal
  | [] => cur
  | x :: xs => setFrom (cur.set j x) (j + 1) xs

theorem setFrom_cons : ∀ (xs : List GoVal) (y : GoVal) (cur : List GoVal) (j : Nat),
    setFrom (y :: cur) (j + 1) xs = y :: setFrom cur j xs
  | [], _, _, _ => rfl
  | x :: xs, y, cur, j => by
      simp only [setFrom, List.set_cons_succ]
      exact setFrom_cons xs y (cur.set j x) (j + 1)

/-- Filling from position 0 with exactly as many values as the
container holds replaces its contents. -/
theorem setFrom_zero_full : ∀ (xs cur : List GoVal), cur.length = xs.length →
    setFrom cur 0 xs = xs
  | [], [], _ => rfl
  | x :: xs, c :: cur, h => by
      simp only [setFrom, List.set_cons_zero]
      rw [setFrom_cons, setFrom_zero_full xs cur (by simpa using h)]
  | [], _ :: _, h => by simp at h
  | _ :: _, [], h => by simp at h

/-- Looking up the sequential key `i + k` in an encoding of `es` keyed
from `i` yields the `k`-th stored Lua value. -/
theorem encSeq_lookup : ∀ (es : List GoVal) (ents : List (LuaVal × LuaVal)) (i k : Nat),
    encSeq i es ents = true → k < es.length →
    lookupTable ents (.number ((i + k : Nat) : Rat))
      = (match ents.get? k with | some p => p.2 | none => .nil)
  | [], _, _, k, _, hk => by simp at hk
  | e :: er, (ky, l) :: lr, i, 0, henc, _ => by
      simp only [encSeq, Bool.and_eq_true] at henc
      obtain ⟨⟨hk, _⟩, _⟩ := henc
      cases ky <;> simp_all [lookupTable, List.find?, luaKeyEq]
  | e :: er, (ky, l) :: lr, i, k + 1, henc, hk => by
      simp only [encSeq, Bool.and_eq_true] at henc
      obtain ⟨⟨hky, _⟩, hrest⟩ := henc
      have ih := encSeq_lookup er lr (i + 1) k hrest (by simpa using hk)
      have hne : luaKeyEq ky (.number ((i + (k + 1) : Nat) : Rat)) = false := by
        cases ky <;> simp only [luaKeyEq] at hky ⊢ <;> try rfl
        rw [beq_iff_eq] at hky
        subst hky
        rw [beq_eq_false_iff_ne]
        intro hcast
        have h2 : i = i + (k + 1) := Nat.cast_injective hcast
        omega
      have harith : (i + 1) + k = i + (k + 1) := by omega
      rw [harith] at ih
      simp only [lookupTable, List.find?, hne] at ih ⊢
      simpa using ih
  | e :: er, [], i, k, henc, hk => by simp [encSeq] at henc

/-- The sequential table encoding a slice reports the slice's length. -/
theorem objLen_encSeq (es : List GoVal) (ents : List (LuaVal × LuaVal))
    (henc : encSeq 1 es ents = true) : objLen ents = es.length := by
  have hlen := encSeq_length 1 es ents henc
  have hnn : ∀ j, 0 < j → j ≤ es.length →
      lookupTable ents (.number ((j : Nat) : Rat)) ≠ .nil := by
    intro j hj1 hj2
    have hl := encSeq_lookup es ents 1 (j - 1) henc (by omega)
    have harith : 1 + (j - 1) = j := by omega
    rw [harith] at hl
    rw [hl]
    cases hg : ents.get? (j - 1) with
    | none =>
        have : ents.length ≤ j - 1 := List.get?_eq_none.mp hg
        omega
    | some p =>
        -- the stored value encodes an element, hence is not nil
        have hmem : p ∈ ents := List.get?_mem hg
        have : ∀ (es2 : List GoVal) (ents2 : List (LuaVal × LuaVal)) (i : Nat),
            encSeq i es2 ents2 = true → ∀ q ∈ ents2, q.2 ≠ LuaVal.nil := by
          intro es2
          induction es2 with
          | nil => intro ents2 i h q hq; cases ents2 <;> simp_all [encSeq]
          | cons e2 er2 ih =>
              intro ents2 i h q hq
              cases ents2 with
              | nil => simp at hq
              | cons p2 lr2 =>
                  obtain ⟨k2, l2⟩ := p2
                  simp only [encSeq, Bool.and_eq_true] at h
                  rcases List.mem_cons.mp hq with hq | hq
                  · subst hq; exact encVal_ne_nil h.1.2
                  · exact ih lr2 (i + 1) h.2 q hq
        exact this es ents 1 henc p hmem
  have hfull := objLen_go_full ents ents.length 0 (by
    intro j hj1 hj2
    exact hnn j (by omega) (by omega))
  simp only [objLen]
  rw [hlen] at hfull ⊢
  simpa using hfull

theorem goToLua_str_key (s : String) (pf : Bool) (st : GState) :
    goToLua (.vstr false s) pf st = (.str s, st) := by
  simp [goToLua, derefChain, isNewType]

theorem vpush_vmark_ne (st : GState) (a b : Nat) (tbl : LuaVal) (h : a ≠ b) :
    vpush (vmark st b tbl) a = vpush st a := by
  simp [vpush, vmark, List.find?, Ne.symm h, beq_false_of_ne (Ne.symm h)]

theorem vpush_next_irrel (st : GState) (n a : Nat) :
    vpush { st with next := n } a = vpush st a := rfl

theorem lookupVis_cons_ne (vis : VisitedG) (b : Nat) (gv : GoVal) (a : Nat) (h : a ≠ b) :
    lookupVis ((b, gv) :: vis) a = lookupVis vis a := by
  simp [lookupVis, List.find?, beq_false_of_ne (Ne.symm h)]

theorem vpush_consState_ne (st : GState) (b n : Nat) (tbl : LuaVal) (a : Nat)
    (h : a ≠ b) :
    vpush ⟨(b, tbl) :: st.vis, n⟩ a = vpush st a := by
  simp [vpush, List.find?, beq_false_of_ne (Ne.symm h)]

theorem plainPairs_cons {vt : GoType} {gk gv : GoVal} {rest : List (GoVal × GoVal)}
    (h : plainPairs vt ((gk, gv) :: rest) = true) :
    (∃ s, gk = .vstr false s) ∧ (gv.typeOf).beq vt = true ∧ plainVal gv = true
      ∧ plainPairs vt rest = true := by
  cases gk <;> simp_all [plainPairs]
  rename_i nt s
  cases nt <;> simp_all

mutual

/-- Copy-mode conversion of a plain value with fresh identities: it
pushes the canonical encoding, creates tables with fresh, pairwise
distinct identities, and records only identities of the value being
converted. -/
theorem ENC_val : ∀ (v : GoVal) (st : GState),
    plainVal v = true → (addrsOf v).Nodup →
    (∀ a ∈ addrsOf v, vpush st a = none) →
    ∃ lv st2,
      goToLua v false st = (lv, st2)
      ∧ encVal v lv = true
      ∧ st.next ≤ st2.next
      ∧ (∀ id ∈ idsOfLua lv, st.next ≤ id ∧ id < st2.next)
      ∧ (idsOfLua lv).Nodup
      ∧ (∀ a, vpush st a = none → a ∉ addrsOf v → vpush st2 a = none)
  | .vbool nt b, st => by
      intro hp hn hf
      cases nt with
      | false =>
          exact ⟨.boolean b, st, by simp [goToLua, derefChain], by simp [encVal],
            le_refl _, by simp [idsOfLua], by simp [idsOfLua], fun a ha _ => ha⟩
      | true => simp [plainVal] at hp
  | .vint nt n, st => by
      intro hp hn hf
      cases nt with
      | false =>
          have hr : roundF64 n = n := by simpa [plainVal] using hp
          exact ⟨.number ((n : Int) : Rat), st, by simp [goToLua, derefChain, hr],
            by simp [encVal], le_refl _, by simp [idsOfLua], by simp [idsOfLua],
            fun a ha _ => ha⟩
      | true => simp [plainVal] at hp
  | .vuint nt n, st => by
      intro hp hn hf
      cases nt with
      | false =>
          have hr : roundF64Nat n = n := by simpa [plainVal] using hp
          exact ⟨.number ((n : Nat) : Rat), st, by simp [goToLua, derefChain, hr],
            by simp [encVal], le_refl _, by simp [idsOfLua], by simp [idsOfLua],
            fun a ha _ => ha⟩
      | true => simp [plainVal] at hp
  | .vfloat nt q, st => by
      intro hp hn hf
      cases nt with
      | false =>
          exact ⟨.number q, st, by simp [goToLua, derefChain], by simp [encVal],
            le_refl _, by simp [idsOfLua], by simp [idsOfLua], fun a ha _ => ha⟩
      | true => simp [plainVal] at hp
  | .vstr nt s, st => by
      intro hp hn hf
      cases nt with
      | false =>
          exact ⟨.str s, st, by simp [goToLua, derefChain, isNewType], by simp [encVal],
            le_refl _, by simp [idsOfLua], by simp [idsOfLua], fun a ha _ => ha⟩
      | true => simp [plainVal] at hp
  | .vnull, st => by intro hp _ _; simp [plainVal] at hp
  | .vptrNil t, st => by intro hp _ _; simp [plainVal] at hp
  | .vptr t a p, st => by intro hp _ _; simp [plainVal] at hp
  | .vsliceNil t, st => by intro hp _ _; simp [plainVal] at hp
  | .varray t es, st => by intro hp _ _; simp [plainVal] at hp
  | .vmapNil kt vt, st => by intro hp _ _; simp [plainVal] at hp
  | .vifaceNil, st => by intro hp _ _; simp [plainVal] at hp
  | .vluaObject r, st => by intro hp _ _; simp [plainVal] at hp
  | .vslice t a es, st => by
      intro hp hn hf
      have hpe : plainElems t es = true := by simpa [plainVal] using hp
      have hcons : a ∉ addrsList es ∧ (addrsList es).Nodup := by
        simpa [addrsOf, List.nodup_cons] using hn
      have hfa : vpush st a = none := hf a (by simp [addrsOf])
      have hf2 : ∀ a2 ∈ addrsList es,
          vpush ⟨(a, LuaVal.table st.next []) :: st.vis, st.next + 1⟩ a2 = none := by
        intro a2 ha2
        have hne : a2 ≠ a := by rintro rfl; exact hcons.1 ha2
        rw [vpush_consState_ne st a (st.next + 1) (.table st.next []) a2 hne]
        exact hf a2 (by simp [addrsOf, ha2])
      obtain ⟨ents, st3, hrun, henc, hnext, hids, hnd, hctl⟩ :=
        ENC_seq t es 1 [] ⟨(a, .table st.next []) :: st.vis, st.next + 1⟩
          hpe hcons.2 hf2 (by simp)
      have hnext2 : st.next + 1 ≤ st3.next := hnext
      have hids2 : ∀ id ∈ idsEntries ents, st.next + 1 ≤ id ∧ id < st3.next := hids
      refine ⟨.table st.next ents, st3, ?_, ?_, by omega, ?_, ?_, ?_⟩
      · simp +decide [goToLua, derefChain, copySliceToTable, elemsOf, sliceAddr,
          GoVal.kind, GoVal.typeOf, GoType.kind, vmark, hfa, hrun]
      · simpa [encVal] using henc
      · intro id hid
        simp only [idsOfLua] at hid
        rcases List.mem_cons.mp hid with hid | hid
        · subst hid; exact ⟨le_refl _, by omega⟩
        · have := hids2 id hid
          constructor <;> omega
      · simp only [idsOfLua, List.nodup_cons]
        refine ⟨fun hmem => ?_, hnd⟩
        have := hids2 _ hmem
        omega
      · intro a2 ha2 hnmem
        simp only [addrsOf, List.mem_cons] at hnmem
        push_neg at hnmem
        refine hctl a2 ?_ hnmem.2
        rw [vpush_consState_ne st a (st.next + 1) (.table st.next []) a2 hnmem.1]
        exact ha2
  | .vmap kt vt a ps, st => by
      intro hp hn hf
      have hp3 : kt.beq (.str false) = true ∧ (keyStrs ps).Nodup
          ∧ plainPairs vt ps = true := by
        simpa [plainVal, Bool.and_eq_true, decide_eq_true_eq, and_assoc] using hp
      have hcons : a ∉ addrsPairs ps ∧ (addrsPairs ps).Nodup := by
        simpa [addrsOf, List.nodup_cons] using hn
      have hfa : vpush st a = none := hf a (by simp [addrsOf])
      have hf2 : ∀ a2 ∈ addrsPairs ps,
          vpush ⟨(a, LuaVal.table st.next []) :: st.vis, st.next + 1⟩ a2 = none := by
        intro a2 ha2
        have hne : a2 ≠ a := by rintro rfl; exact hcons.1 ha2
        rw [vpush_consState_ne st a (st.next + 1) (.table st.next []) a2 hne]
        exact hf a2 (by simp [addrsOf, ha2])
      obtain ⟨ents, st3, hrun, henc, hnext, hids, hnd, hctl⟩ :=
        ENC_pairs vt ps [] ⟨(a, .table st.next []) :: st.vis, st.next + 1⟩
          hp3.2.2 hp3.2.1 hcons.2 hf2 (by simp)
      have hnext2 : st.next + 1 ≤ st3.next := hnext
      have hids2 : ∀ id ∈ idsEntries ents, st.next + 1 ≤ id ∧ id < st3.next := hids
      refine ⟨.table st.next ents, st3, ?_, ?_, by omega, ?_, ?_, ?_⟩
      · simp +decide [goToLua, derefChain, copyMapToTable, mapEntriesOf, mapAddr,
          GoVal.kind, GoVal.typeOf, GoType.kind, vmark, hfa, hrun]
      · simpa [encVal] using henc
      · intro id hid
        simp only [idsOfLua] at hid
        rcases List.mem_cons.mp hid with hid | hid
        · subst hid; exact ⟨le_refl _, by omega⟩
        · have := hids2 id hid
          constructor <;> omega
      · simp only [idsOfLua, List.nodup_cons]
        refine ⟨fun hmem => ?_, hnd⟩
        have := hids2 _ hmem
        omega
      · intro a2 ha2 hnmem
        simp only [addrsOf, List.mem_cons] at hnmem
        push_neg at hnmem
        refine hctl a2 ?_ hnmem.2
        rw [vpush_consState_ne st a (st.next + 1) (.table st.next []) a2 hnmem.1]
        exact ha2
  | .vstruct fs vs, st => by
      intro hp hn hf
      have hp2 : plainFieldsOK fs = true ∧ plainVals fs vs = true := by
        simpa [plainVal, Bool.and_eq_true] using hp
      have hkeys : (keysOfFields fs).Nodup := by
        have := hp2.1
        simp only [plainFieldsOK, Bool.and_eq_true, decide_eq_true_eq] at this
        exact this.1.1
      have hn2 : (addrsList vs).Nodup := by simpa [addrsOf] using hn
      have hf2 : ∀ a2 ∈ addrsList vs, vpush ⟨st.vis, st.next + 1⟩ a2 = none := by
        intro a2 ha2
        have hsame : vpush ⟨st.vis, st.next + 1⟩ a2 = vpush st a2 := rfl
        rw [hsame]
        exact hf a2 (by simpa [addrsOf] using ha2)
      obtain ⟨ents, st3, hrun, henc, hnext, hids, hnd, hctl⟩ :=
        ENC_fields fs vs [] ⟨st.vis, st.next + 1⟩ hp2.2 hkeys hn2 hf2 (by simp)
      have hnext2 : st.next + 1 ≤ st3.next := hnext
      have hids2 : ∀ id ∈ idsEntries ents, st.next + 1 ≤ id ∧ id < st3.next := hids
      refine ⟨.table st.next ents, st3, ?_, ?_, by omega, ?_, ?_, ?_⟩
      · simp +decide [goToLua, derefChain, copyStructToTable, structParts,
          GoVal.kind, GoVal.typeOf, GoType.kind, hrun]
      · simpa [encVal] using henc
      · intro id hid
        simp only [idsOfLua] at hid
        rcases List.mem_cons.mp hid with hid | hid
        · subst hid; exact ⟨le_refl _, by omega⟩
        · have := hids2 id hid
          constructor <;> omega
      · simp only [idsOfLua, List.nodup_cons]
        refine ⟨fun hmem => ?_, hnd⟩
        have := hids2 _ hmem
        omega
      · intro a2 ha2 hnmem
        simp only [addrsOf] at hnmem
        have hsame : vpush ⟨st.vis, st.next + 1⟩ a2 = vpush st a2 := rfl
        exact hctl a2 (by rw [hsame]; exact ha2) hnmem

/-- The slice-element loop on plain elements appends the canonical
sequential entries. -/
theorem ENC_seq : ∀ (t : GoType) (elems : List GoVal) (i : Nat)
    (acc : List (LuaVal × LuaVal)) (st : GState),
    plainElems t elems = true →
    (addrsList elems).Nodup →
    (∀ a ∈ addrsList elems, vpush st a = none) →
    (∀ p ∈ acc, (∃ j : Nat, p.1 = .number ((j : Nat) : Rat) ∧ j < i) ∧ p.2 ≠ .nil) →
    ∃ ents st2,
      goSliceElems elems i acc st = (acc ++ ents, st2)
      ∧ encSeq i elems ents = true
      ∧ st.next ≤ st2.next
      ∧ (∀ id ∈ idsEntries ents, st.next ≤ id ∧ id < st2.next)
      ∧ (idsEntries ents).Nodup
      ∧ (∀ a, vpush st a = none → a ∉ addrsList elems → vpush st2 a = none)
  | t, [], i, acc, st => by
      intro _ _ _ _
      exact ⟨[], st, by simp [goSliceElems], by simp [encSeq], le_refl _,
        by simp [idsEntries], by simp [idsEntries], fun a ha _ => ha⟩
  | t, e :: rest, i, acc, st => by
      intro hpe hnd hf hacc
      have hpe1 : ((e.typeOf).beq t = true ∧ plainVal e = true)
          ∧ plainElems t rest = true := by
        simpa [plainElems, Bool.and_eq_true] using hpe
      have hnl : isNil e = false := plainVal_not_isNil hpe1.1.2
      have hsplit : (addrsOf e).Nodup ∧ (addrsList rest).Nodup
          ∧ (addrsOf e).Disjoint (addrsList rest) := by
        simpa [addrsList, List.nodup_append] using hnd
      obtain ⟨lv, stm, hrune, hence, hnexte, hidse, hnde, hctle⟩ :=
        ENC_val e st hpe1.1.2 hsplit.1
          (fun a2 ha2 => hf a2 (by simp [addrsList, ha2]))
      have hkeyfresh : ∀ p ∈ acc, luaKeyEq p.1 (.number ((i : Nat) : Rat)) = false := by
        intro p hp
        obtain ⟨⟨j, hj1, hj2⟩, _⟩ := hacc p hp
        rw [hj1]
        simp [luaKeyEq]
        intro hcast
        exact absurd (Nat.cast_injective hcast) (Nat.ne_of_lt hj2)
      have happ := setTable_fresh acc (.number ((i : Nat) : Rat)) lv hkeyfresh (by simp)
        (encVal_ne_nil hence)
      have hacc2 : ∀ p ∈ acc ++ [(LuaVal.number ((i : Nat) : Rat), lv)],
          (∃ j : Nat, p.1 = .number ((j : Nat) : Rat) ∧ j < i + 1) ∧ p.2 ≠ .nil := by
        intro p hp
        rcases List.mem_append.mp hp with hp | hp
        · obtain ⟨⟨j, hj1, hj2⟩, h2⟩ := hacc p hp
          exact ⟨⟨j, hj1, by omega⟩, h2⟩
        · simp at hp
          subst hp
          exact ⟨⟨i, rfl, by omega⟩, encVal_ne_nil hence⟩
      obtain ⟨ents, st3, hrun, henc, hnext, hids, hnd2, hctl⟩ :=
        ENC_seq t rest (i + 1) (acc ++ [(.number ((i : Nat) : Rat), lv)]) stm
          hpe1.2 hsplit.2.1
          (fun a2 ha2 => hctle a2 (hf a2 (by simp [addrsList, ha2]))
            (fun hmem => hsplit.2.2 hmem ha2))
          hacc2
      refine ⟨(.number ((i : Nat) : Rat), lv) :: ents, st3, ?_, ?_, by omega, ?_, ?_, ?_⟩
      · have he2 : (if isNil e then GoVal.vnull else e) = e := by simp [hnl]
        simp only [goSliceElems, he2, hrune, happ]
        rw [hrun]
        simp
      · simp [encSeq, hence, henc]
      · intro id hid
        simp only [idsEntries, idsOfLua, List.nil_append, List.mem_append] at hid
        rcases hid with hid | hid
        · have := hidse id hid
          constructor <;> omega
        · have := hids id hid
          constructor <;> omega
      · simp only [idsEntries, idsOfLua, List.nil_append]
        rw [List.nodup_append]
        refine ⟨hnde, hnd2, ?_⟩
        intro x hx1 hx2
        have h1 := hidse x hx1
        have h2 := hids x hx2
        omega
      · intro a2 ha2 hnmem
        simp only [addrsList, List.mem_append] at hnmem
        push_neg at hnmem
        exact hctl a2 (hctle a2 ha2 hnmem.1) hnmem.2

/-- The map-entry loop on plain entries appends the canonical keyed
entries. -/
theorem ENC_pairs : ∀ (vt : GoType) (ps : List (GoVal × GoVal))
    (acc : List (LuaVal × LuaVal)) (st : GState),
    plainPairs vt ps = true →
    (keyStrs ps).Nodup →
    (addrsPairs ps).Nodup →
    (∀ a ∈ addrsPairs ps, vpush st a = none) →
    (∀ p ∈ acc, (∀ s ∈ keyStrs ps, luaKeyEq p.1 (.str s) = false) ∧ p.2 ≠ .nil) →
    ∃ ents st2,
      goMapPairs ps acc st = (acc ++ ents, st2)
      ∧ encPairs ps ents = true
      ∧ st.next ≤ st2.next
      ∧ (∀ id ∈ idsEntries ents, st.next ≤ id ∧ id < st2.next)
      ∧ (idsEntries ents).Nodup
      ∧ (∀ a, vpush st a = none → a ∉ addrsPairs ps → vpush st2 a = none)
  | vt, [], acc, st => by
      intro _ _ _ _ _
      exact ⟨[], st, by simp [goMapPairs], by simp [encPairs], le_refl _,
        by simp [idsEntries], by simp [idsEntries], fun a ha _ => ha⟩
  | vt, (gk, gv) :: rest, acc, st => by
      intro hpp hknd hnd hf hacc
      obtain ⟨⟨s, hgk⟩, hbq, hpv, hrest⟩ := plainPairs_cons hpp
      subst hgk
      have hnl : isNil gv = false := plainVal_not_isNil hpv
      have hnd2 : (addrsOf gv).Nodup ∧ (addrsPairs rest).Nodup
          ∧ (addrsOf gv).Disjoint (addrsPairs rest) := by
        have hre : addrsPairs ((GoVal.vstr false s, gv) :: rest)
            = addrsOf gv ++ addrsPairs rest := by simp [addrsPairs, addrsOf]
        rw [hre] at hnd
        simpa [List.nodup_append] using hnd
      obtain ⟨lv, stm, hrune, hence, hnexte, hidse, hnde, hctle⟩ :=
        ENC_val gv st hpv hnd2.1
          (fun a2 ha2 => hf a2 (by simp [addrsPairs, addrsOf, ha2]))
      have hkND : s ∉ keyStrs rest ∧ (keyStrs rest).Nodup := by
        simpa [keyStrs, keyStrOf, List.nodup_cons] using hknd
      have hkeyfresh : ∀ p ∈ acc, luaKeyEq p.1 (.str s) = false := by
        intro p hp
        exact (hacc p hp).1 s (by simp [keyStrs, keyStrOf])
      have happ := setTable_fresh acc (.str s) lv hkeyfresh (by simp)
        (encVal_ne_nil hence)
      have hacc2 : ∀ p ∈ acc ++ [(LuaVal.str s, lv)],
          (∀ s2 ∈ keyStrs rest, luaKeyEq p.1 (.str s2) = false) ∧ p.2 ≠ .nil := by
        intro p hp
        rcases List.mem_append.mp hp with hp | hp
        · exact ⟨fun s2 hs2 => (hacc p hp).1 s2 (List.mem_cons_of_mem _ hs2), (hacc p hp).2⟩
        · simp at hp
          subst hp
          refine ⟨fun s2 hs2 => ?_, encVal_ne_nil hence⟩
          simp [luaKeyEq]
          intro hcon
          exact absurd (hcon ▸ hs2) hkND.1
      obtain ⟨ents, st3, hrun, henc, hnext, hids, hnd3, hctl⟩ :=
        ENC_pairs vt rest (acc ++ [(.str s, lv)]) stm
          hrest hkND.2 hnd2.2.1
          (fun a2 ha2 => hctle a2 (hf a2 (by simp [addrsPairs, addrsOf, ha2]))
            (fun hmem => hnd2.2.2 hmem ha2))
          hacc2
      refine ⟨(.str s, lv) :: ents, st3, ?_, ?_, by omega, ?_, ?_, ?_⟩
      · have hw2 : (if isNil gv then GoVal.vnull else gv) = gv := by simp [hnl]
        simp only [goMapPairs, goToLua_str_key, hw2, hrune, happ]
        rw [hrun]
        simp
      · simp [encPairs, hence, henc]
      · intro id hid
        simp only [idsEntries, idsOfLua, List.nil_append, List.mem_append] at hid
        rcases hid with hid | hid
        · have := hidse id hid
          constructor <;> omega
        · have := hids id hid
          constructor <;> omega
      · simp only [idsEntries, idsOfLua, List.nil_append]
        rw [List.nodup_append]
        refine ⟨hnde, hnd3, ?_⟩
        intro x hx1 hx2
        have h1 := hidse x hx1
        have h2 := hids x hx2
        omega
      · intro a2 ha2 hnmem
        simp only [addrsPairs, addrsOf, List.mem_append, List.nil_append] at hnmem
        push_neg at hnmem
        exact hctl a2 (hctle a2 ha2 hnmem.1) hnmem.2

/-- The struct-field loop on plain fields appends the canonical keyed
entries. -/
theorem ENC_fields : ∀ (fs : List (String × String × GoType)) (vs : List GoVal)
    (acc : List (LuaVal × LuaVal)) (st : GState),
    plainVals fs vs = true →
    (keysOfFields fs).Nodup →
    (addrsList vs).Nodup →
    (∀ a ∈ addrsList vs, vpush st a = none) →
    (∀ p ∈ acc, (∀ s ∈ keysOfFields fs, luaKeyEq p.1 (.str s) = false) ∧ p.2 ≠ .nil) →
    ∃ ents st2,
      goStructFields fs vs acc st = (acc ++ ents, st2)
      ∧ encFields fs vs ents = true
      ∧ st.next ≤ st2.next
      ∧ (∀ id ∈ idsEntries ents, st.next ≤ id ∧ id < st2.next)
      ∧ (idsEntries ents).Nodup
      ∧ (∀ a, vpush st a = none → a ∉ addrsList vs → vpush st2 a = none)
  | [], [], acc, st => by
      intro _ _ _ _ _
      exact ⟨[], st, by simp [goStructFields], by simp [encFields], le_refl _,
        by simp [idsEntries], by simp [idsEntries], fun a ha _ => ha⟩
  | [], w :: vr, acc, st => by intro hpv _ _ _ _; simp [plainVals] at hpv
  | f :: fr, [], acc, st => by intro hpv _ _ _ _; simp [plainVals] at hpv
  | (name, tag, ft) :: fr, w :: vr, acc, st => by
      intro hpv hknd hnd hf hacc
      have hpv1 : ((w.typeOf).beq ft = true ∧ plainVal w = true)
          ∧ plainVals fr vr = true := by
        simpa [plainVals, Bool.and_eq_true] using hpv
      have hsplit : (addrsOf w).Nodup ∧ (addrsList vr).Nodup
          ∧ (addrsOf w).Disjoint (addrsList vr) := by
        simpa [addrsList, List.nodup_append] using hnd
      obtain ⟨lv, stm, hrune, hence, hnexte, hidse, hnde, hctle⟩ :=
        ENC_val w st hpv1.1.2 hsplit.1
          (fun a2 ha2 => hf a2 (by simp [addrsList, ha2]))
      have hkND : keyOfField (name, tag, ft) ∉ keysOfFields fr
          ∧ (keysOfFields fr).Nodup := by
        simpa [keysOfFields, List.nodup_cons] using hknd
      have hkeyfresh : ∀ p ∈ acc,
          luaKeyEq p.1 (.str (keyOfField (name, tag, ft))) = false := by
        intro p hp
        exact (hacc p hp).1 _ (by simp [keysOfFields])
      have happ := setTable_fresh acc (.str (keyOfField (name, tag, ft))) lv hkeyfresh
        (by simp) (encVal_ne_nil hence)
      have hacc2 : ∀ p ∈ acc ++ [(LuaVal.str (keyOfField (name, tag, ft)), lv)],
          (∀ s2 ∈ keysOfFields fr, luaKeyEq p.1 (.str s2) = false) ∧ p.2 ≠ .nil := by
        intro p hp
        rcases List.mem_append.mp hp with hp | hp
        · exact ⟨fun s2 hs2 => (hacc p hp).1 s2 (List.mem_cons_of_mem _ hs2),
            (hacc p hp).2⟩
        · simp at hp
          subst hp
          refine ⟨fun s2 hs2 => ?_, encVal_ne_nil hence⟩
          simp [luaKeyEq]
          intro hcon
          exact absurd (hcon ▸ hs2) hkND.1
      obtain ⟨ents, st3, hrun, henc, hnext, hids, hnd3, hctl⟩ :=
        ENC_fields fr vr (acc ++ [(.str (keyOfField (name, tag, ft)), lv)]) stm
          hpv1.2 hkND.2 hsplit.2.1
          (fun a2 ha2 => hctle a2 (hf a2 (by simp [addrsList, ha2]))
            (fun hmem => hsplit.2.2 hmem ha2))
          hacc2
      refine ⟨(.str (keyOfField (name, tag, ft)), lv) :: ents, st3, ?_, ?_, by omega,
        ?_, ?_, ?_⟩
      · simp only [goStructFields, goToLua_str_key, hrune]
        have hkey : (if tag != "" then tag else name) = keyOfField (name, tag, ft) := rfl
        rw [hkey, happ, hrun]
        simp
      · simp [encFields, hence, henc]
      · intro id hid
        simp only [idsEntries, idsOfLua, List.nil_append, List.mem_append] at hid
        rcases hid with hid | hid
        · have := hidse id hid
          constructor <;> omega
        · have := hids id hid
          constructor <;> omega
      · simp only [idsEntries, idsOfLua, List.nil_append]
        rw [List.nodup_append]
        refine ⟨hnde, hnd3, ?_⟩
        intro x hx1 hx2
        have h1 := hidse x hx1
        have h2 := hids x hx2
        omega
      · intro a2 ha2 hnmem
        simp only [addrsList, List.mem_append] at hnmem
        push_neg at hnmem
        exact hctl a2 (hctle a2 ha2 hnmem.1) hnmem.2

end

end Luar
